import Mathlib

/-!
# Constant folding over the DIESEL syntax tree (`optimize.cc`, `optimize.hh`)

A shallow embedding of the constant-folding pass.  The pass mutates the tree
in place and hands back a node pointer; here every method returns the rewritten
node instead, and "the node itself" means the node with its own tag, position
and type field and with the child fields as the method left them.

`fatal(...)`, a division trap and a null dereference end the compiler, so each
method returns `Except Fault _`.
-/

namespace Optimize

/-! ## Data model -/

/-- Modelled from the spec: the source position attached to every node
(`position_information`). -/
structure position_information where
  line : Nat
  column : Nat
deriving DecidableEq, Repr

/-- Modelled from the spec: the resolved static type stored in every expression
node (`type`, compared against `integer_type` and `real_type`); "integer, real,
or other/unknown". -/
inductive Ty where
  | integer_type
  | real_type
  | void_type
deriving DecidableEq, Repr

/-- Modelled from the spec: the symbol kinds `get_symbol_tag` reports; the pass
only ever compares against `SYM_CONST`. -/
inductive sym_type where
  | SYM_UNDEF
  | SYM_ARRAY
  | SYM_CONST
  | SYM_VAR
  | SYM_PARAM
  | SYM_PROC
  | SYM_FUNC
  | SYM_NAMETYPE
deriving DecidableEq, Repr

/-- Modelled from the spec: the node discriminator `tag` (`ast.hh` is not part
of the sources at hand); one tag per node class, the abstract bases included. -/
inductive ast_node_types where
  | AST_NODE
  | AST_STATEMENT
  | AST_EXPRESSION
  | AST_BINARYOPERATION
  | AST_BINARYRELATION
  | AST_LVALUE
  | AST_EXPR_LIST
  | AST_ID
  | AST_INDEXED
  | AST_ADD
  | AST_SUB
  | AST_OR
  | AST_AND
  | AST_MULT
  | AST_DIVIDE
  | AST_IDIV
  | AST_MOD
  | AST_EQUAL
  | AST_NOTEQUAL
  | AST_LESSTHAN
  | AST_GREATERTHAN
  | AST_FUNCTIONCALL
  | AST_UMINUS
  | AST_NOT
  | AST_INTEGER
  | AST_REAL
  | AST_CAST
deriving DecidableEq, Repr

/-- A host `double`, carried as its 64-bit pattern; its arithmetic is not
embedded (see `host_double`). -/
structure Double where
  bits : Nat
deriving DecidableEq, Repr

/-- The host's floating-point operations used by the real branch of
`fold_binop` and by the conversions inside `get_value<T>`; a parameter of the
development. -/
structure host_double where
  add : Double → Double → Double
  sub : Double → Double → Double
  mul : Double → Double → Double
  div : Double → Double → Double
  nonzero : Double → Bool
  of_bool : Bool → Double
  of_long : Int → Double
  to_long : Double → Int

/-- The ways the compiler stops instead of returning a node. -/
inductive Fault where
  | fatal_abstract
  | fatal_head
  | fatal_no_value
  | bad_cast
  | div_by_zero
  | div_overflow
  | null_deref
  | out_of_fuel
deriving DecidableEq, Repr

/-- The abstract expression classes whose `optimize()` is `fatal(...)`. -/
inductive abstract_kind where
  | ast_expression
  | ast_lvalue
  | ast_binaryoperation
  | ast_binaryrelation
deriving DecidableEq, Repr

/-- The concrete subclasses of `ast_binaryoperation`. -/
inductive Binop where
  | add
  | sub
  | or
  | and
  | mult
  | divide
  | idiv
  | mod
deriving DecidableEq, Repr

/-- The concrete subclasses of `ast_binaryrelation`. -/
inductive Binrel where
  | equal
  | notequal
  | lessthan
  | greaterthan
deriving DecidableEq, Repr

/-- Modelled from the spec: the `ast_id *id` field of an indexed access or a
function call. -/
structure id_ref where
  pos : position_information
  type : Ty
  sym_p : Nat
deriving DecidableEq, Repr

mutual
/-- Modelled from the spec: the expression node classes (`ast.hh` is not part
of the sources at hand), one constructor per class, the binary operations and
relations grouped by family.  Integer and real literals have the type of their
class ("integer fold → integer literal; real fold → real literal"); every other
node carries the type the type checker stored.  Child pointers the pass
dereferences without a test are not nullable here. -/
inductive Expr where
  | abstract_class (kind : abstract_kind) (pos : position_information) (type : Ty)
  | ast_id (pos : position_information) (type : Ty) (sym_p : Nat)
  | ast_indexed (pos : position_information) (type : Ty) (id : id_ref) (index : Expr)
  | binop (op : Binop) (pos : position_information) (type : Ty) (left right : Expr)
  | binrel (rel : Binrel) (pos : position_information) (type : Ty) (left right : Expr)
  | ast_functioncall (pos : position_information) (type : Ty) (id : id_ref)
      (parameter_list : ExprList)
  | ast_uminus (pos : position_information) (type : Ty) (expr : Expr)
  | ast_not (pos : position_information) (type : Ty) (expr : Expr)
  | ast_cast (pos : position_information) (type : Ty) (expr : Expr)
  | ast_integer (pos : position_information) (value : Int)
  | ast_real (pos : position_information) (value : Double)
/-- Modelled from the spec: an `ast_expr_list *`; `null` is the NULL pointer, `node` a list node with
a trailing expression, `node_null` a list node whose `last_expr` is NULL. -/
inductive ExprList where
  | null
  | node (pos : position_information) (preceding : ExprList) (last_expr : Expr)
  | node_null (pos : position_information) (preceding : ExprList)
end

deriving instance DecidableEq for Expr, ExprList
deriving instance Repr for Expr, ExprList
deriving instance DecidableEq for Except

/-- Modelled from the spec: the symbol table as the pass reads it; the kind of
a symbol, and the
`const_value` union of a constant symbol read as a `long` and as a `double`. -/
structure symbol_table where
  get_symbol_tag : Nat → sym_type
  const_ival : Nat → Int
  const_rval : Nat → Double

/-- What the optimizer reads from its surroundings: the global `sym_tab` and
the host's floating-point unit. -/
structure Env where
  sym_tab : symbol_table
  fp : host_double

/-! ## Host `long` arithmetic (LP64: 64-bit two's complement) -/

/-- Smallest `long`. -/
def LONG_MIN : Int := -(2 ^ 63)

/-- Largest `long`. -/
def LONG_MAX : Int := 2 ^ 63 - 1

/-- Reduction of a mathematical integer to the `long` with the same low 64 bits. -/
def wrap_long (x : Int) : Int := (x + 2 ^ 63) % 2 ^ 64 - 2 ^ 63

/-- Host `lv + rv` on `long`. -/
def long_add (lv rv : Int) : Int := wrap_long (lv + rv)

/-- Host `lv - rv` on `long`. -/
def long_sub (lv rv : Int) : Int := wrap_long (lv - rv)

/-- Host `lv * rv` on `long`. -/
def long_mul (lv rv : Int) : Int := wrap_long (lv * rv)

/-- A C `bool` converted to `long`. -/
def long_of_bool (b : Bool) : Int := if b then 1 else 0

/-- Host `lv && rv` on `long`. -/
def long_and (lv rv : Int) : Int := long_of_bool (decide (lv ≠ 0) && decide (rv ≠ 0))

/-- Host `lv || rv` on `long`. -/
def long_or (lv rv : Int) : Int := long_of_bool (decide (lv ≠ 0) || decide (rv ≠ 0))

/-- Host `lv / rv` on `long`: truncating division; a zero divisor and
`LONG_MIN / -1` trap. -/
def long_div (lv rv : Int) : Except Fault Int :=
  if rv = 0 then .error .div_by_zero
  else if lv = LONG_MIN ∧ rv = -1 then .error .div_overflow
  else .ok (Int.tdiv lv rv)

/-- Host `lv % rv` on `long`: remainder of the truncating division; same traps. -/
def long_mod (lv rv : Int) : Except Fault Int :=
  if rv = 0 then .error .div_by_zero
  else if lv = LONG_MIN ∧ rv = -1 then .error .div_overflow
  else .ok (Int.tmod lv rv)

/-! ## Node accessors -/

/-- The `tag` field. -/
def Binop.tag : Binop → ast_node_types
  | .add => .AST_ADD
  | .sub => .AST_SUB
  | .or => .AST_OR
  | .and => .AST_AND
  | .mult => .AST_MULT
  | .divide => .AST_DIVIDE
  | .idiv => .AST_IDIV
  | .mod => .AST_MOD

/-- The `tag` field. -/
def Binrel.tag : Binrel → ast_node_types
  | .equal => .AST_EQUAL
  | .notequal => .AST_NOTEQUAL
  | .lessthan => .AST_LESSTHAN
  | .greaterthan => .AST_GREATERTHAN

/-- The `tag` field. -/
def abstract_kind.tag : abstract_kind → ast_node_types
  | .ast_expression => .AST_EXPRESSION
  | .ast_lvalue => .AST_LVALUE
  | .ast_binaryoperation => .AST_BINARYOPERATION
  | .ast_binaryrelation => .AST_BINARYRELATION

/-- The `tag` field of an expression node. -/
def Expr.tag : Expr → ast_node_types
  | .abstract_class k _ _ => k.tag
  | .ast_id _ _ _ => .AST_ID
  | .ast_indexed _ _ _ _ => .AST_INDEXED
  | .binop op _ _ _ _ => op.tag
  | .binrel rel _ _ _ _ => rel.tag
  | .ast_functioncall _ _ _ _ => .AST_FUNCTIONCALL
  | .ast_uminus _ _ _ => .AST_UMINUS
  | .ast_not _ _ _ => .AST_NOT
  | .ast_cast _ _ _ => .AST_CAST
  | .ast_integer _ _ => .AST_INTEGER
  | .ast_real _ _ => .AST_REAL

/-- The `type` field of an expression node. -/
def Expr.type : Expr → Ty
  | .abstract_class _ _ t => t
  | .ast_id _ t _ => t
  | .ast_indexed _ t _ _ => t
  | .binop _ _ t _ _ => t
  | .binrel _ _ t _ _ => t
  | .ast_functioncall _ t _ _ => t
  | .ast_uminus _ t _ => t
  | .ast_not _ t _ => t
  | .ast_cast _ t _ => t
  | .ast_integer _ _ => .integer_type
  | .ast_real _ _ => .real_type

/-- The `pos` field of an expression node. -/
def Expr.pos : Expr → position_information
  | .abstract_class _ p _ => p
  | .ast_id p _ _ => p
  | .ast_indexed p _ _ _ => p
  | .binop _ p _ _ _ => p
  | .binrel _ p _ _ _ => p
  | .ast_functioncall p _ _ _ => p
  | .ast_uminus p _ _ => p
  | .ast_not p _ _ => p
  | .ast_cast p _ _ => p
  | .ast_integer p _ => p
  | .ast_real p _ => p

mutual
/-- Nesting depth of an expression: the longest chain of `fold_constants`
calls the node can cause, minus one. -/
def Expr.depth : Expr → Nat
  | .abstract_class _ _ _ => 0
  | .ast_id _ _ _ => 0
  | .ast_indexed _ _ _ index => index.depth + 1
  | .binop _ _ _ l r => max l.depth r.depth + 1
  | .binrel _ _ _ l r => max l.depth r.depth + 1
  | .ast_functioncall _ _ _ ps => ps.depth + 1
  | .ast_uminus _ _ e => e.depth + 1
  | .ast_not _ _ e => e.depth + 1
  | .ast_cast _ _ e => e.depth + 1
  | .ast_integer _ _ => 0
  | .ast_real _ _ => 0
/-- Largest depth of an expression held by the list. -/
def ExprList.depth : ExprList → Nat
  | .null => 0
  | .node _ p e => max p.depth e.depth
  | .node_null _ p => p.depth
end

/-! ## The optimizer -/

/-- Method `ast_optimizer::is_binop`. -/
def is_binop (node : Expr) : Bool :=
  match node.tag with
  | .AST_ADD => true
  | .AST_SUB => true
  | .AST_OR => true
  | .AST_AND => true
  | .AST_MULT => true
  | .AST_DIVIDE => true
  | .AST_IDIV => true
  | .AST_MOD => true
  | _ => false

/-- Method `ast_optimizer::is_binrel`. -/
def is_binrel (node : Expr) : Bool :=
  match node.tag with
  | .AST_EQUAL => true
  | .AST_NOTEQUAL => true
  | .AST_GREATERTHAN => true
  | .AST_LESSTHAN => true
  | _ => false

/-- Method `ast_optimizer::is_const`. -/
def is_const (env : Env) (expression : Expr) : Bool :=
  match expression with
  | .ast_integer _ _ => true
  | .ast_real _ _ => true
  | .ast_id _ _ sym_p => decide (env.sym_tab.get_symbol_tag sym_p = .SYM_CONST)
  | _ => false

/-- Method `ast_optimizer::get_value<long>`. -/
def get_value_long (env : Env) (node : Expr) : Except Fault Int :=
  match node with
  | .ast_integer _ value => .ok value
  | .ast_real _ value => .ok (env.fp.to_long value)
  | .ast_id _ _ sym_p => .ok (env.sym_tab.const_ival sym_p)
  | _ => .error .fatal_no_value

/-- Method `ast_optimizer::get_value<double>`. -/
def get_value_double (env : Env) (node : Expr) : Except Fault Double :=
  match node with
  | .ast_integer _ value => .ok (env.fp.of_long value)
  | .ast_real _ value => .ok value
  | .ast_id _ _ sym_p => .ok (env.sym_tab.const_rval sym_p)
  | _ => .error .fatal_no_value

/-- Method `ast_optimizer::fold_binop`, with the recursive `fold_constants` passed in
as `fold`. -/
def fold_binop (env : Env) (fold : Expr → Except Fault Expr) (node : Expr) :
    Except Fault Expr :=
  match node with
  | .binop op pos type left right => do
    let left ← fold left
    let right ← fold right
    let node := Expr.binop op pos type left right
    if !(is_const env left && is_const env right) then
      pure node
    else if left.type = .integer_type ∧ right.type = .integer_type then do
      let lv ← get_value_long env left
      let rv ← get_value_long env right
      match op with
      | .add => pure (.ast_integer pos (long_add lv rv))
      | .sub => pure (.ast_integer pos (long_sub lv rv))
      | .mult => pure (.ast_integer pos (long_mul lv rv))
      | .and => pure (.ast_integer pos (long_and lv rv))
      | .or => pure (.ast_integer pos (long_or lv rv))
      | .idiv => do
        let q ← long_div lv rv
        pure (.ast_integer pos q)
      | .mod => do
        let r ← long_mod lv rv
        pure (.ast_integer pos r)
      | .divide => pure node
    else if left.type = .real_type ∧ right.type = .real_type then do
      let lv ← get_value_double env left
      let rv ← get_value_double env right
      match op with
      | .add => pure (.ast_real pos (env.fp.add lv rv))
      | .sub => pure (.ast_real pos (env.fp.sub lv rv))
      | .mult => pure (.ast_real pos (env.fp.mul lv rv))
      | .divide => pure (.ast_real pos (env.fp.div lv rv))
      | .and => pure (.ast_real pos (env.fp.of_bool (env.fp.nonzero lv && env.fp.nonzero rv)))
      | .or => pure (.ast_real pos (env.fp.of_bool (env.fp.nonzero lv || env.fp.nonzero rv)))
      | .idiv => pure node
      | .mod => pure node
    else
      pure node
  | _ => .error .bad_cast

/-- Method `ast_optimizer::fold_binrel`, with the recursive `fold_constants` passed in
as `fold`. -/
def fold_binrel (env : Env) (fold : Expr → Except Fault Expr) (node : Expr) :
    Except Fault Expr :=
  match node with
  | .binrel rel pos type left right => do
    let left ← fold left
    let right ← fold right
    let node := Expr.binrel rel pos type left right
    if !(is_const env left && is_const env right) then
      pure node
    else if left.type = .integer_type ∧ right.type = .integer_type then do
      let lv ← get_value_long env left
      let rv ← get_value_long env right
      match rel with
      | .equal => pure (.ast_integer pos (long_of_bool (decide (lv = rv))))
      | .notequal => pure (.ast_integer pos (long_of_bool (decide (lv ≠ rv))))
      | .greaterthan => pure (.ast_integer pos (long_of_bool (decide (lv > rv))))
      | .lessthan => pure (.ast_integer pos (long_of_bool (decide (lv < rv))))
    else
      pure node
  | _ => .error .bad_cast

/-- Method `ast_expr_list::optimize`, with `fold_constants` passed in as `fold`; on
`null` nothing is done (every caller tests for NULL first). -/
def ExprList.optimize (fold : Expr → Except Fault Expr) : ExprList → Except Fault ExprList
  | .null => pure .null
  | .node pos preceding last_expr => do
    let preceding ← ExprList.optimize fold preceding
    let last_expr ← fold last_expr
    pure (.node pos preceding last_expr)
  | .node_null pos preceding => do
    let preceding ← ExprList.optimize fold preceding
    pure (.node_null pos preceding)

/-- The virtual `optimize()` of an expression node, with `fold_constants`
passed in as `fold`: the abstract classes are fatal, identifiers and literals do
nothing, every other class folds its child expressions. -/
def Expr.optimize (fold : Expr → Except Fault Expr) : Expr → Except Fault Expr
  | .abstract_class _ _ _ => .error .fatal_abstract
  | .ast_id pos type sym_p => pure (.ast_id pos type sym_p)
  | .ast_indexed pos type id index => do
    let index ← fold index
    pure (.ast_indexed pos type id index)
  | .binop op pos type left right => do
    let left ← fold left
    let right ← fold right
    pure (.binop op pos type left right)
  | .binrel rel pos type left right => do
    let left ← fold left
    let right ← fold right
    pure (.binrel rel pos type left right)
  | .ast_functioncall pos type id parameter_list => do
    let parameter_list ← ExprList.optimize fold parameter_list
    pure (.ast_functioncall pos type id parameter_list)
  | .ast_uminus pos type expr => do
    let expr ← fold expr
    pure (.ast_uminus pos type expr)
  | .ast_not pos type expr => do
    let expr ← fold expr
    pure (.ast_not pos type expr)
  | .ast_cast pos type expr => do
    let expr ← fold expr
    pure (.ast_cast pos type expr)
  | .ast_integer pos value => pure (.ast_integer pos value)
  | .ast_real pos value => pure (.ast_real pos value)

/-- The body of `ast_optimizer::fold_constants`, with the function itself (as
called from `optimize()`, `fold_binop` and `fold_binrel`) passed in as `fold`. -/
def fold_constants_body (env : Env) (fold : Expr → Except Fault Expr) (node : Expr) :
    Except Fault Expr := do
  let node ← Expr.optimize fold node
  if is_binop node then
    fold_binop env fold node
  else if is_binrel node then
    fold_binrel env fold node
  else
    pure node

/-- Method `ast_optimizer::fold_constants`, bounded by the nesting of its own calls:
`fuel` is the number of nested `fold_constants` calls still allowed. -/
def fold_constants_fuel (env : Env) : Nat → Expr → Except Fault Expr
  | 0, _ => .error .out_of_fuel
  | fuel + 1, node => fold_constants_body env (fold_constants_fuel env fuel) node

/-- Method `ast_optimizer::fold_constants`: the bound is the depth of the node, which
always suffices (`fold_constants_fuel_eq`, `fold_constants_eq`). -/
def fold_constants (env : Env) (node : Expr) : Except Fault Expr :=
  fold_constants_fuel env (node.depth + 1) node

/-! ## Sample surroundings and trees -/

/-- A floating-point unit stand-in for the concrete examples, none of which
does real arithmetic. -/
def fp0 : host_double where
  add a b := ⟨a.bits + b.bits⟩
  sub a b := ⟨a.bits - b.bits⟩
  mul a b := ⟨a.bits * b.bits⟩
  div a b := ⟨a.bits / b.bits⟩
  nonzero a := decide (a.bits ≠ 0)
  of_bool b := ⟨if b then 1 else 0⟩
  of_long i := ⟨i.toNat⟩
  to_long a := a.bits

/-- A symbol table in which symbol 0 (`FOO`) is a constant with stored value 2
and every other symbol (symbol 1 is `x`) is a variable. -/
def sym_tab0 : symbol_table where
  get_symbol_tag s := if s = 0 then .SYM_CONST else .SYM_VAR
  const_ival _ := 2
  const_rval _ := ⟨0⟩

/-- The surroundings of the concrete examples. -/
def env0 : Env := ⟨sym_tab0, fp0⟩

/-- A position: line `l`, column `c`. -/
def at_ (l c : Nat) : position_information := ⟨l, c⟩

/-- An integer literal at line 1. -/
def lit (c : Nat) (v : Int) : Expr := .ast_integer (at_ 1 c) v

/-! ## Native integer semantics (reference evaluator) -/

/-- The value the target machine computes for an integer binary operation;
`divide` is the real division and has no integer value. -/
def native_binop : Binop → Int → Int → Except Fault Int
  | .add, a, b => .ok (long_add a b)
  | .sub, a, b => .ok (long_sub a b)
  | .mult, a, b => .ok (long_mul a b)
  | .and, a, b => .ok (long_and a b)
  | .or, a, b => .ok (long_or a b)
  | .idiv, a, b => long_div a b
  | .mod, a, b => long_mod a b
  | .divide, _, _ => .error .fatal_no_value

/-- The value the target machine computes for an integer comparison. -/
def native_binrel : Binrel → Int → Int → Int
  | .equal, a, b => long_of_bool (decide (a = b))
  | .notequal, a, b => long_of_bool (decide (a ≠ b))
  | .greaterthan, a, b => long_of_bool (decide (a > b))
  | .lessthan, a, b => long_of_bool (decide (a < b))

/-- Run-time value of an integer expression when identifier `s` holds `rho s`;
nodes outside the integer fragment have no value here. -/
def eval_long (rho : Nat → Int) : Expr → Except Fault Int
  | .ast_integer _ v => .ok v
  | .ast_id _ _ s => .ok (rho s)
  | .binop op _ _ l r => do
    let a ← eval_long rho l
    let b ← eval_long rho r
    native_binop op a b
  | .binrel rel _ _ l r => do
    let a ← eval_long rho l
    let b ← eval_long rho r
    pure (native_binrel rel a b)
  | _ => .error .fatal_no_value

/-- The integer fragment: integer literals, integer-typed identifiers, and the
integer operators and relations over them. -/
def int_expr : Expr → Bool
  | .ast_integer _ _ => true
  | .ast_id _ type _ => decide (type = .integer_type)
  | .binop op _ _ l r => decide (op ≠ .divide) && int_expr l && int_expr r
  | .binrel _ _ _ l r => int_expr l && int_expr r
  | _ => false

/-- Trees whose leaves are integer literals and whose inner nodes are add, sub,
mult, and, or, integer-divide or mod. -/
def literal_tree : Expr → Bool
  | .ast_integer _ _ => true
  | .binop op _ _ l r => decide (op ≠ .divide) && literal_tree l && literal_tree r
  | _ => false

/-- Some integer-divide or mod node of the tree has a right operand whose
value is zero. -/
def zero_divisor_arises (rho : Nat → Int) : Expr → Bool
  | .binop op _ _ l r =>
    zero_divisor_arises rho l || zero_divisor_arises rho r ||
      (decide (op = .idiv ∨ op = .mod) && decide (eval_long rho r = .ok 0))
  | .binrel _ _ _ l r => zero_divisor_arises rho l || zero_divisor_arises rho r
  | _ => false


/-- A run-time environment agreeing with `sym_tab0`: `FOO` holds 2, every
variable holds 7. -/
def rho0 : Nat → Int := fun s => if s = 0 then 2 else 7

/-- The identifier `FOO` (a constant) as an integer-typed node. -/
def FOO : Expr := .ast_id (at_ 1 5) .integer_type 0

/-- The identifier `x` (a variable) as an integer-typed node. -/
def var_x : Expr := .ast_id (at_ 1 1) .integer_type 1

/-- The tree `(2 + 3) * (4 + 5)`. -/
def scenario_D : Expr :=
  .binop .mult (at_ 1 9) .integer_type
    (.binop .add (at_ 1 4) .integer_type (lit 2 2) (lit 6 3))
    (.binop .add (at_ 1 14) .integer_type (lit 12 4) (lit 16 5))

/-- The tree `((0 - 9223372036854775807) - 1) div (0 - 1)`, that is
`LONG_MIN div -1`, built from non-negative literals. -/
def min_div_minus_one : Expr :=
  .binop .idiv (at_ 1 30) .integer_type
    (.binop .sub (at_ 1 25) .integer_type
      (.binop .sub (at_ 1 4) .integer_type (lit 2 0) (lit 6 9223372036854775807))
      (lit 27 1))
    (.binop .sub (at_ 1 38) .integer_type (lit 36 0) (lit 40 1))

/-! ## Statements -/

mutual
/-- Modelled from the spec: the statement node classes.  A field the pass
tests against NULL, or dereferences without a test, is nullable here: the body
lists through `StmtList.null`, the elsif list through `ElsifList.null`, the
value of a `return` through `Option`. -/
inductive Stmt where
  | ast_statement (pos : position_information)
  | ast_procedurecall (pos : position_information) (id : id_ref) (parameter_list : ExprList)
  | ast_assign (pos : position_information) (lhs : Expr) (rhs : Expr)
  | ast_while (pos : position_information) (condition : Expr) (body : StmtList)
  | ast_if (pos : position_information) (condition : Expr) (body : StmtList)
      (elsif_list : ElsifList) (else_body : StmtList)
  | ast_return (pos : position_information) (value : Option Expr)
/-- Modelled from the spec: an `ast_stmt_list *`; `null` is the NULL pointer,
`node_null` a list node whose `last_stmt` is NULL. -/
inductive StmtList where
  | null
  | node (pos : position_information) (preceding : StmtList) (last_stmt : Stmt)
  | node_null (pos : position_information) (preceding : StmtList)
/-- Modelled from the spec: an `ast_elsif_list *`; `null` is the NULL pointer,
`node_null` a list node whose `last_elsif` is NULL. -/
inductive ElsifList where
  | null
  | node (pos : position_information) (preceding : ElsifList) (last_elsif : Elsif)
  | node_null (pos : position_information) (preceding : ElsifList)
/-- Modelled from the spec: an `ast_elsif` clause. -/
inductive Elsif where
  | ast_elsif (pos : position_information) (condition : Expr) (body : StmtList)
end

deriving instance DecidableEq for Stmt, StmtList, ElsifList, Elsif
deriving instance Repr for Stmt, StmtList, ElsifList, Elsif

/-- Modelled from the spec: the node classes that are neither statements nor
expressions and whose `optimize()` is `fatal(...)`. -/
inductive other_node where
  | ast_node (pos : position_information)
  | ast_procedurehead (pos : position_information)
  | ast_functionhead (pos : position_information)
deriving DecidableEq, Repr

/-- The `optimize()` of `ast_node`, `ast_procedurehead` and
`ast_functionhead`. -/
def other_node.optimize : other_node → Except Fault other_node
  | .ast_node _ => .error .fatal_abstract
  | .ast_procedurehead _ => .error .fatal_head
  | .ast_functionhead _ => .error .fatal_head

/-- A call `fold_constants(p)` through a pointer that may be NULL: the first
thing `fold_constants` does is `node->optimize()`. -/
def fold_constants_ptr (env : Env) : Option Expr → Except Fault (Option Expr)
  | none => .error .null_deref
  | some node => do
    let node ← fold_constants env node
    pure (some node)

mutual
/-- The virtual `optimize()` of a statement node. -/
def Stmt.optimize (env : Env) : Stmt → Except Fault Stmt
  | .ast_statement _ => .error .fatal_abstract
  | .ast_procedurecall pos id parameter_list => do
    let parameter_list ← ExprList.optimize (fold_constants env) parameter_list
    pure (.ast_procedurecall pos id parameter_list)
  | .ast_assign pos lhs rhs => do
    let rhs ← fold_constants env rhs
    pure (.ast_assign pos lhs rhs)
  | .ast_while pos condition body => do
    let condition ← fold_constants env condition
    let body ← StmtList.optimize env body
    pure (.ast_while pos condition body)
  | .ast_if pos condition body elsif_list else_body => do
    let condition ← fold_constants env condition
    let body ← StmtList.optimize env body
    let elsif_list ← (match elsif_list with
      | .null => pure .null
      | _ => ElsifList.optimize env elsif_list)
    let else_body ← (match else_body with
      | .null => pure .null
      | _ => StmtList.optimize env else_body)
    pure (.ast_if pos condition body elsif_list else_body)
  | .ast_return pos value => do
    let value ← fold_constants_ptr env value
    pure (.ast_return pos value)
/-- Method `ast_stmt_list::optimize`; called through a NULL pointer it is a
null dereference. -/
def StmtList.optimize (env : Env) : StmtList → Except Fault StmtList
  | .null => .error .null_deref
  | .node pos preceding last_stmt => do
    let preceding ← (match preceding with
      | .null => pure .null
      | _ => StmtList.optimize env preceding)
    let last_stmt ← Stmt.optimize env last_stmt
    pure (.node pos preceding last_stmt)
  | .node_null pos preceding => do
    let preceding ← (match preceding with
      | .null => pure .null
      | _ => StmtList.optimize env preceding)
    pure (.node_null pos preceding)
/-- Method `ast_elsif_list::optimize`; called through a NULL pointer it is a
null dereference. -/
def ElsifList.optimize (env : Env) : ElsifList → Except Fault ElsifList
  | .null => .error .null_deref
  | .node pos preceding last_elsif => do
    let preceding ← (match preceding with
      | .null => pure .null
      | _ => ElsifList.optimize env preceding)
    let last_elsif ← Elsif.optimize env last_elsif
    pure (.node pos preceding last_elsif)
  | .node_null pos preceding => do
    let preceding ← (match preceding with
      | .null => pure .null
      | _ => ElsifList.optimize env preceding)
    pure (.node_null pos preceding)
/-- Method `ast_elsif::optimize`. -/
def Elsif.optimize (env : Env) : Elsif → Except Fault Elsif
  | .ast_elsif pos condition body => do
    let condition ← fold_constants env condition
    let body ← StmtList.optimize env body
    pure (.ast_elsif pos condition body)
end

/-- Method `ast_optimizer::do_optimize`. -/
def do_optimize (env : Env) (body : StmtList) : Except Fault StmtList :=
  match body with
  | .null => pure .null
  | _ => StmtList.optimize env body

/-- A body holding the single statement `s`. -/
def body_of (s : Stmt) : StmtList := .node (at_ 1 1) .null s


/-! ## The post-pass invariant -/

/-- A binary operation the pass folds: both operands constant-classified and
an operator / operand-type combination with a case in `fold_binop`. -/
def foldable_binop (env : Env) (op : Binop) (l r : Expr) : Bool :=
  is_const env l && is_const env r &&
    (decide (l.type = .integer_type ∧ r.type = .integer_type ∧ op ≠ .divide) ||
      decide (l.type = .real_type ∧ r.type = .real_type ∧ op ≠ .idiv ∧ op ≠ .mod))

/-- A binary relation the pass folds: both operands constant-classified and
integer-typed. -/
def foldable_binrel (env : Env) (l r : Expr) : Bool :=
  is_const env l && is_const env r &&
    decide (l.type = .integer_type ∧ r.type = .integer_type)

mutual
/-- No binary node the pass folds occurs anywhere in the expression. -/
def Expr.no_foldable (env : Env) : Expr → Bool
  | .binop op _ _ l r =>
    !foldable_binop env op l r && Expr.no_foldable env l && Expr.no_foldable env r
  | .binrel _ _ _ l r =>
    !foldable_binrel env l r && Expr.no_foldable env l && Expr.no_foldable env r
  | .ast_indexed _ _ _ index => Expr.no_foldable env index
  | .ast_functioncall _ _ _ ps => ExprList.no_foldable env ps
  | .ast_uminus _ _ e => Expr.no_foldable env e
  | .ast_not _ _ e => Expr.no_foldable env e
  | .ast_cast _ _ e => Expr.no_foldable env e
  | _ => true
/-- No binary node the pass folds occurs anywhere in the expressions of the
list. -/
def ExprList.no_foldable (env : Env) : ExprList → Bool
  | .null => true
  | .node _ p e => ExprList.no_foldable env p && Expr.no_foldable env e
  | .node_null _ p => ExprList.no_foldable env p
end

mutual
/-- No binary node the pass folds occurs anywhere in the statement; assignment
targets are looked into when `targets` is set. -/
def Stmt.no_foldable (env : Env) (targets : Bool) : Stmt → Bool
  | .ast_statement _ => true
  | .ast_procedurecall _ _ ps => ExprList.no_foldable env ps
  | .ast_assign _ lhs rhs => (!targets || Expr.no_foldable env lhs) && Expr.no_foldable env rhs
  | .ast_while _ c body => Expr.no_foldable env c && StmtList.no_foldable env targets body
  | .ast_if _ c body el eb =>
    Expr.no_foldable env c && StmtList.no_foldable env targets body &&
      ElsifList.no_foldable env targets el && StmtList.no_foldable env targets eb
  | .ast_return _ none => true
  | .ast_return _ (some v) => Expr.no_foldable env v
/-- The invariant over a statement list. -/
def StmtList.no_foldable (env : Env) (targets : Bool) : StmtList → Bool
  | .null => true
  | .node _ p s => StmtList.no_foldable env targets p && Stmt.no_foldable env targets s
  | .node_null _ p => StmtList.no_foldable env targets p
/-- The invariant over an elsif list. -/
def ElsifList.no_foldable (env : Env) (targets : Bool) : ElsifList → Bool
  | .null => true
  | .node _ p s => ElsifList.no_foldable env targets p && Elsif.no_foldable env targets s
  | .node_null _ p => ElsifList.no_foldable env targets p
/-- The invariant over an elsif clause. -/
def Elsif.no_foldable (env : Env) (targets : Bool) : Elsif → Bool
  | .ast_elsif _ c body => Expr.no_foldable env c && StmtList.no_foldable env targets body
end

/-! ## A naive single-pass fold -/

mutual
/-- A bottom-up fold that folds each child exactly once and then decides on
the parent, as `fold_binop` / `fold_binrel` decide once the operands are
folded. -/
def naive_fold (env : Env) : Expr → Except Fault Expr
  | .abstract_class _ _ _ => .error .fatal_abstract
  | .ast_id pos type sym_p => pure (.ast_id pos type sym_p)
  | .ast_indexed pos type id index => do
    let index ← naive_fold env index
    pure (.ast_indexed pos type id index)
  | .binop op pos type left right => do
    let left ← naive_fold env left
    let right ← naive_fold env right
    fold_binop env .ok (.binop op pos type left right)
  | .binrel rel pos type left right => do
    let left ← naive_fold env left
    let right ← naive_fold env right
    fold_binrel env .ok (.binrel rel pos type left right)
  | .ast_functioncall pos type id parameter_list => do
    let parameter_list ← naive_fold_list env parameter_list
    pure (.ast_functioncall pos type id parameter_list)
  | .ast_uminus pos type expr => do
    let expr ← naive_fold env expr
    pure (.ast_uminus pos type expr)
  | .ast_not pos type expr => do
    let expr ← naive_fold env expr
    pure (.ast_not pos type expr)
  | .ast_cast pos type expr => do
    let expr ← naive_fold env expr
    pure (.ast_cast pos type expr)
  | .ast_integer pos value => pure (.ast_integer pos value)
  | .ast_real pos value => pure (.ast_real pos value)
/-- The naive fold over a parameter list. -/
def naive_fold_list (env : Env) : ExprList → Except Fault ExprList
  | .null => pure .null
  | .node pos preceding last_expr => do
    let preceding ← naive_fold_list env preceding
    let last_expr ← naive_fold env last_expr
    pure (.node pos preceding last_expr)
  | .node_null pos preceding => do
    let preceding ← naive_fold_list env preceding
    pure (.node_null pos preceding)
end

/-! ## Counting the calls of `fold_constants` -/

mutual
/-- Number of expression nodes of an expression. -/
def Expr.nodes : Expr → Nat
  | .ast_indexed _ _ _ index => index.nodes + 1
  | .binop _ _ _ l r => l.nodes + r.nodes + 1
  | .binrel _ _ _ l r => l.nodes + r.nodes + 1
  | .ast_functioncall _ _ _ ps => ps.nodes + 1
  | .ast_uminus _ _ e => e.nodes + 1
  | .ast_not _ _ e => e.nodes + 1
  | .ast_cast _ _ e => e.nodes + 1
  | _ => 1
/-- Number of expression nodes held by a parameter list. -/
def ExprList.nodes : ExprList → Nat
  | .null => 0
  | .node _ p e => p.nodes + e.nodes
  | .node_null _ p => p.nodes
end

/-- Method `ast_expr_list::optimize` of the instrumented optimizer: next to
the list it returns the number of `fold_constants` calls made. -/
def ExprList.optimize_counted (fold : Expr → Except Fault (Expr × Nat)) :
    ExprList → Except Fault (ExprList × Nat)
  | .null => pure (.null, 0)
  | .node pos preceding last_expr => do
    let (preceding, n1) ← ExprList.optimize_counted fold preceding
    let (last_expr, n2) ← fold last_expr
    pure (.node pos preceding last_expr, n1 + n2)
  | .node_null pos preceding => do
    let (preceding, n1) ← ExprList.optimize_counted fold preceding
    pure (.node_null pos preceding, n1)

/-- The virtual `optimize()` of the instrumented optimizer: next to the node
it returns the number of `fold_constants` calls made. -/
def Expr.optimize_counted (fold : Expr → Except Fault (Expr × Nat)) :
    Expr → Except Fault (Expr × Nat)
  | .abstract_class _ _ _ => .error .fatal_abstract
  | .ast_id pos type sym_p => pure (.ast_id pos type sym_p, 0)
  | .ast_indexed pos type id index => do
    let (index, n1) ← fold index
    pure (.ast_indexed pos type id index, n1)
  | .binop op pos type left right => do
    let (left, n1) ← fold left
    let (right, n2) ← fold right
    pure (.binop op pos type left right, n1 + n2)
  | .binrel rel pos type left right => do
    let (left, n1) ← fold left
    let (right, n2) ← fold right
    pure (.binrel rel pos type left right, n1 + n2)
  | .ast_functioncall pos type id parameter_list => do
    let (parameter_list, n1) ← ExprList.optimize_counted fold parameter_list
    pure (.ast_functioncall pos type id parameter_list, n1)
  | .ast_uminus pos type expr => do
    let (expr, n1) ← fold expr
    pure (.ast_uminus pos type expr, n1)
  | .ast_not pos type expr => do
    let (expr, n1) ← fold expr
    pure (.ast_not pos type expr, n1)
  | .ast_cast pos type expr => do
    let (expr, n1) ← fold expr
    pure (.ast_cast pos type expr, n1)
  | .ast_integer pos value => pure (.ast_integer pos value, 0)
  | .ast_real pos value => pure (.ast_real pos value, 0)

/-- Method `ast_optimizer::fold_binop` of the instrumented optimizer: the two
operand folds are counted; the decision on the folded operands makes no call
and is that of `fold_binop`. -/
def fold_binop_counted (env : Env) (fold : Expr → Except Fault (Expr × Nat)) (node : Expr) :
    Except Fault (Expr × Nat) :=
  match node with
  | .binop op pos type left right => do
    let (left, n1) ← fold left
    let (right, n2) ← fold right
    let res ← fold_binop env .ok (.binop op pos type left right)
    pure (res, n1 + n2)
  | _ => .error .bad_cast

/-- Method `ast_optimizer::fold_binrel` of the instrumented optimizer. -/
def fold_binrel_counted (env : Env) (fold : Expr → Except Fault (Expr × Nat)) (node : Expr) :
    Except Fault (Expr × Nat) :=
  match node with
  | .binrel rel pos type left right => do
    let (left, n1) ← fold left
    let (right, n2) ← fold right
    let res ← fold_binrel env .ok (.binrel rel pos type left right)
    pure (res, n1 + n2)
  | _ => .error .bad_cast

/-- The body of `ast_optimizer::fold_constants` of the instrumented optimizer:
one call, plus the calls made by `optimize()`, plus the calls made by
`fold_binop` / `fold_binrel`. -/
def fold_constants_counted_body (env : Env) (fold : Expr → Except Fault (Expr × Nat))
    (node : Expr) : Except Fault (Expr × Nat) := do
  let (node, n1) ← Expr.optimize_counted fold node
  if is_binop node then do
    let (res, n2) ← fold_binop_counted env fold node
    pure (res, 1 + n1 + n2)
  else if is_binrel node then do
    let (res, n2) ← fold_binrel_counted env fold node
    pure (res, 1 + n1 + n2)
  else
    pure (node, 1 + n1)

/-- The instrumented `fold_constants`, bounded like `fold_constants_fuel`. -/
def fold_constants_counted_fuel (env : Env) : Nat → Expr → Except Fault (Expr × Nat)
  | 0, _ => .error .out_of_fuel
  | fuel + 1, node =>
    fold_constants_counted_body env (fold_constants_counted_fuel env fuel) node

/-- The instrumented `fold_constants`: the folded node and the number of
`fold_constants` invocations made, the outermost one included. -/
def fold_constants_counted (env : Env) (node : Expr) : Except Fault (Expr × Nat) :=
  fold_constants_counted_fuel env (node.depth + 1) node

/-- The tree `1 + 2`. -/
def one_plus_two : Expr := .binop .add (at_ 1 3) .integer_type (lit 1 1) (lit 5 2)

/-- The assignment `a[1 + 2] := 0`, where `a` is symbol 2. -/
def assign_indexed : Stmt :=
  .ast_assign (at_ 1 10)
    (.ast_indexed (at_ 1 1) .integer_type ⟨at_ 1 1, .integer_type, 2⟩ one_plus_two)
    (lit 13 0)

/-! ## Basic facts about the embedding -/

/-- A bind in `Except` succeeds exactly when both steps do. -/
theorem bind_eq_ok {α β : Type} (x : Except Fault α) (f : α → Except Fault β) (b : β) :
    (x >>= f) = .ok b ↔ ∃ a, x = .ok a ∧ f a = .ok b := by
  cases x with
  | error e => simp [bind, Except.bind]
  | ok a => simp [bind, Except.bind]

/-- The node `fold_binop` returns once the operands are folded is the node
itself or a literal at the node's position. -/
theorem fold_binop_shape (env : Env) (op : Binop) (pos : position_information) (type : Ty)
    (l r res : Expr) (h : fold_binop env .ok (.binop op pos type l r) = .ok res) :
    res = .binop op pos type l r ∨ (∃ v, res = .ast_integer pos v) ∨
      ∃ v, res = .ast_real pos v := by
  simp only [fold_binop, bind, Except.bind, pure, Except.pure] at h
  split_ifs at h
  · exact Or.inl (Except.ok.inj h).symm
  · cases hl : get_value_long env l <;> cases hr : get_value_long env r <;>
      simp only [hl, hr] at h <;> try cases h
    cases op <;> simp only [long_div, long_mod] at h <;> try split_ifs at h
    all_goals first
      | exact Or.inl (Except.ok.inj h).symm
      | exact Or.inr (Or.inl ⟨_, (Except.ok.inj h).symm⟩)

  · cases hl : get_value_double env l <;> cases hr : get_value_double env r <;>
      simp only [hl, hr] at h <;> try cases h
    cases op
    all_goals first
      | exact Or.inl (Except.ok.inj h).symm
      | exact Or.inr (Or.inr ⟨_, (Except.ok.inj h).symm⟩)
  · exact Or.inl (Except.ok.inj h).symm

/-- The node `fold_binrel` returns once the operands are folded is the node
itself or an integer literal at the node's position. -/
theorem fold_binrel_shape (env : Env) (rel : Binrel) (pos : position_information) (type : Ty)
    (l r res : Expr) (h : fold_binrel env .ok (.binrel rel pos type l r) = .ok res) :
    res = .binrel rel pos type l r ∨ ∃ v, res = .ast_integer pos v := by
  simp only [fold_binrel, bind, Except.bind, pure, Except.pure] at h
  split_ifs at h
  · exact Or.inl (Except.ok.inj h).symm
  · cases hl : get_value_long env l <;> cases hr : get_value_long env r <;>
      simp only [hl, hr] at h <;> try cases h
    cases rel
    all_goals exact Or.inr ⟨_, (Except.ok.inj h).symm⟩
  · exact Or.inl (Except.ok.inj h).symm

/-- The two steps of `fold_binop`: fold the operands, then decide on the node
with the folded operands. -/
theorem fold_binop_eq (env : Env) (fold : Expr → Except Fault Expr) (op : Binop)
    (pos : position_information) (type : Ty) (l r : Expr) :
    fold_binop env fold (.binop op pos type l r) =
      (fold l >>= fun l1 => fold r >>= fun r1 =>
        fold_binop env .ok (.binop op pos type l1 r1)) := by
  cases hl : fold l with
  | error e => simp [fold_binop, hl, bind, Except.bind]
  | ok l1 =>
    cases hr : fold r with
    | error e => simp [fold_binop, hl, hr, bind, Except.bind]
    | ok r1 => simp [fold_binop, hl, hr, bind, Except.bind]

/-- The two steps of `fold_binrel`: fold the operands, then decide on the node
with the folded operands. -/
theorem fold_binrel_eq (env : Env) (fold : Expr → Except Fault Expr) (rel : Binrel)
    (pos : position_information) (type : Ty) (l r : Expr) :
    fold_binrel env fold (.binrel rel pos type l r) =
      (fold l >>= fun l1 => fold r >>= fun r1 =>
        fold_binrel env .ok (.binrel rel pos type l1 r1)) := by
  cases hl : fold l with
  | error e => simp [fold_binrel, hl, bind, Except.bind]
  | ok l1 =>
    cases hr : fold r with
    | error e => simp [fold_binrel, hl, hr, bind, Except.bind]
    | ok r1 => simp [fold_binrel, hl, hr, bind, Except.bind]

/-- Two continuations that agree on every value a computation can produce give
the same bind. -/
theorem bind_congr_ok {α β : Type} (x : Except Fault α) (f g : α → Except Fault β)
    (h : ∀ a, x = .ok a → f a = g a) : (x >>= f) = (x >>= g) := by
  cases x with
  | error e => rfl
  | ok a => exact h a rfl

/-- Folding a parameter list does not deepen it, when folding an expression
does not. -/
theorem ExprList.optimize_list_depth (fold : Expr → Except Fault Expr)
    (hf : ∀ e r, fold e = .ok r → r.depth ≤ e.depth) :
    ∀ l r, ExprList.optimize fold l = .ok r → r.depth ≤ l.depth
  | .null, r, h => by
    simp only [ExprList.optimize, pure, Except.pure, Except.ok.injEq] at h
    subst h
    exact Nat.le_refl _
  | .node pos p e, r, h => by
    simp only [ExprList.optimize, bind_eq_ok, pure, Except.pure, Except.ok.injEq] at h
    obtain ⟨p1, hp, e1, he, rfl⟩ := h
    have h1 := ExprList.optimize_list_depth fold hf p p1 hp
    have h2 := hf e e1 he
    simp only [ExprList.depth]
    omega
  | .node_null pos p, r, h => by
    simp only [ExprList.optimize, bind_eq_ok, pure, Except.pure, Except.ok.injEq] at h
    obtain ⟨p1, hp, rfl⟩ := h
    have h1 := ExprList.optimize_list_depth fold hf p p1 hp
    simp only [ExprList.depth]
    omega

/-- Folding a parameter list only calls `fold` on expressions of the list. -/
theorem ExprList.optimize_list_congr (f g : Expr → Except Fault Expr) :
    ∀ l : ExprList, (∀ x : Expr, x.depth ≤ l.depth → f x = g x) →
      ExprList.optimize f l = ExprList.optimize g l
  | .null, _ => rfl
  | .node pos p e, h => by
    have hp : ∀ x : Expr, x.depth ≤ p.depth → f x = g x := fun x hx =>
      h x (by simp only [ExprList.depth]; omega)
    have he : f e = g e := h e (by simp only [ExprList.depth]; omega)
    simp only [ExprList.optimize, ExprList.optimize_list_congr f g p hp, he]
  | .node_null pos p, h => by
    have hp : ∀ x : Expr, x.depth ≤ p.depth → f x = g x := fun x hx =>
      h x (by simp only [ExprList.depth]; omega)
    simp only [ExprList.optimize, ExprList.optimize_list_congr f g p hp]

/-- The `optimize()` of a node keeps its tag. -/
theorem Expr.optimize_tag (fold : Expr → Except Fault Expr) (e r : Expr)
    (h : Expr.optimize fold e = .ok r) : r.tag = e.tag := by
  cases e <;> simp only [Expr.optimize, bind_eq_ok, pure, Except.pure, Except.ok.injEq] at h
  all_goals first
    | (subst h; rfl)
    | (obtain ⟨_, _, rfl⟩ := h; rfl)
    | (obtain ⟨_, _, _, _, rfl⟩ := h; rfl)
    | cases h

/-- The `optimize()` of a node does not deepen it, when `fold` does not. -/
theorem Expr.optimize_depth (fold : Expr → Except Fault Expr)
    (hf : ∀ e r, fold e = .ok r → r.depth ≤ e.depth) (e r : Expr)
    (h : Expr.optimize fold e = .ok r) : r.depth ≤ e.depth := by
  cases e with
  | ast_functioncall pos type id ps =>
    simp only [Expr.optimize, bind_eq_ok, pure, Except.pure, Except.ok.injEq] at h
    obtain ⟨ps1, hps, rfl⟩ := h
    have := ExprList.optimize_list_depth fold hf ps ps1 hps
    simp only [Expr.depth]
    omega
  | binop op pos type l r =>
    simp only [Expr.optimize, bind_eq_ok, pure, Except.pure, Except.ok.injEq] at h
    obtain ⟨l1, hl, r1, hr, rfl⟩ := h
    have := hf _ _ hl
    have := hf _ _ hr
    simp only [Expr.depth]
    omega
  | binrel op pos type l r =>
    simp only [Expr.optimize, bind_eq_ok, pure, Except.pure, Except.ok.injEq] at h
    obtain ⟨l1, hl, r1, hr, rfl⟩ := h
    have := hf _ _ hl
    have := hf _ _ hr
    simp only [Expr.depth]
    omega
  | abstract_class k pos type => simp [Expr.optimize] at h
  | ast_id pos type s =>
    simp only [Expr.optimize, pure, Except.pure, Except.ok.injEq] at h
    subst h
    exact Nat.le_refl _
  | ast_integer pos v =>
    simp only [Expr.optimize, pure, Except.pure, Except.ok.injEq] at h
    subst h
    exact Nat.le_refl _
  | ast_real pos v =>
    simp only [Expr.optimize, pure, Except.pure, Except.ok.injEq] at h
    subst h
    exact Nat.le_refl _
  | ast_indexed pos type id index =>
    simp only [Expr.optimize, bind_eq_ok, pure, Except.pure, Except.ok.injEq] at h
    obtain ⟨e1, he, rfl⟩ := h
    have := hf _ _ he
    simp only [Expr.depth]
    omega
  | ast_uminus pos type e =>
    simp only [Expr.optimize, bind_eq_ok, pure, Except.pure, Except.ok.injEq] at h
    obtain ⟨e1, he, rfl⟩ := h
    have := hf _ _ he
    simp only [Expr.depth]
    omega
  | ast_not pos type e =>
    simp only [Expr.optimize, bind_eq_ok, pure, Except.pure, Except.ok.injEq] at h
    obtain ⟨e1, he, rfl⟩ := h
    have := hf _ _ he
    simp only [Expr.depth]
    omega
  | ast_cast pos type e =>
    simp only [Expr.optimize, bind_eq_ok, pure, Except.pure, Except.ok.injEq] at h
    obtain ⟨e1, he, rfl⟩ := h
    have := hf _ _ he
    simp only [Expr.depth]
    omega

/-- The `optimize()` of a node only calls `fold` on strictly shallower nodes. -/
theorem Expr.optimize_congr (f g : Expr → Except Fault Expr) (e : Expr)
    (h : ∀ x : Expr, x.depth < e.depth → f x = g x) :
    Expr.optimize f e = Expr.optimize g e := by
  cases e with
  | ast_functioncall pos type id ps =>
    have hp : ∀ x : Expr, x.depth ≤ ps.depth → f x = g x := fun x hx =>
      h x (by simp only [Expr.depth]; omega)
    simp only [Expr.optimize, ExprList.optimize_list_congr f g ps hp]
  | binop op pos type l r =>
    have hl : f l = g l := h l (by simp only [Expr.depth]; omega)
    have hr : f r = g r := h r (by simp only [Expr.depth]; omega)
    simp only [Expr.optimize, hl, hr]
  | binrel op pos type l r =>
    have hl : f l = g l := h l (by simp only [Expr.depth]; omega)
    have hr : f r = g r := h r (by simp only [Expr.depth]; omega)
    simp only [Expr.optimize, hl, hr]
  | abstract_class k pos type => rfl
  | ast_id pos type s => rfl
  | ast_integer pos v => rfl
  | ast_real pos v => rfl
  | ast_indexed pos type id index =>
    have he : f index = g index := h index (by simp only [Expr.depth]; omega)
    simp only [Expr.optimize, he]
  | ast_uminus pos type e =>
    have he : f e = g e := h e (by simp only [Expr.depth]; omega)
    simp only [Expr.optimize, he]
  | ast_not pos type e =>
    have he : f e = g e := h e (by simp only [Expr.depth]; omega)
    simp only [Expr.optimize, he]
  | ast_cast pos type e =>
    have he : f e = g e := h e (by simp only [Expr.depth]; omega)
    simp only [Expr.optimize, he]

/-- What `fold_constants` does on a binary operation: the operands are folded
by the node's own `optimize()`, folded again by `fold_binop`, and then the node
is decided on. -/
theorem fold_constants_body_binop (env : Env) (fold : Expr → Except Fault Expr) (op : Binop)
    (pos : position_information) (type : Ty) (l r : Expr) :
    fold_constants_body env fold (.binop op pos type l r) =
      (fold l >>= fun l1 => fold r >>= fun r1 => fold l1 >>= fun l2 => fold r1 >>= fun r2 =>
        fold_binop env .ok (.binop op pos type l2 r2)) := by
  have hb : ∀ a b, is_binop (.binop op pos type a b) = true := by
    intro a b; cases op <;> rfl
  cases hl : fold l with
  | error e => simp [fold_constants_body, Expr.optimize, hl, bind, Except.bind]
  | ok l1 =>
    cases hr : fold r with
    | error e => simp [fold_constants_body, Expr.optimize, hl, hr, bind, Except.bind]
    | ok r1 =>
      simp only [fold_constants_body, Expr.optimize, hl, hr, bind, Except.bind, pure,
        Except.pure, hb, if_true]
      exact fold_binop_eq env fold op pos type l1 r1

/-- What `fold_constants` does on a binary relation: as for a binary
operation, with `fold_binrel` deciding. -/
theorem fold_constants_body_binrel (env : Env) (fold : Expr → Except Fault Expr)
    (rel : Binrel) (pos : position_information) (type : Ty) (l r : Expr) :
    fold_constants_body env fold (.binrel rel pos type l r) =
      (fold l >>= fun l1 => fold r >>= fun r1 => fold l1 >>= fun l2 => fold r1 >>= fun r2 =>
        fold_binrel env .ok (.binrel rel pos type l2 r2)) := by
  have hb : ∀ a b, is_binop (.binrel rel pos type a b) = false := by
    intro a b; cases rel <;> rfl
  have hc : ∀ a b, is_binrel (.binrel rel pos type a b) = true := by
    intro a b; cases rel <;> rfl
  cases hl : fold l with
  | error e => simp [fold_constants_body, Expr.optimize, hl, bind, Except.bind]
  | ok l1 =>
    cases hr : fold r with
    | error e => simp [fold_constants_body, Expr.optimize, hl, hr, bind, Except.bind]
    | ok r1 =>
      simp only [fold_constants_body, Expr.optimize, hl, hr, bind, Except.bind, pure,
        Except.pure, hb, hc, if_true, Bool.false_eq_true, if_false]
      exact fold_binrel_eq env fold rel pos type l1 r1

/-- On a node that is neither a binary operation nor a binary relation,
`fold_constants` is the node's `optimize()`. -/
theorem fold_constants_body_other (env : Env) (fold : Expr → Except Fault Expr) (e : Expr)
    (hb : is_binop e = false) (hr : is_binrel e = false) :
    fold_constants_body env fold e = Expr.optimize fold e := by
  cases h : Expr.optimize fold e with
  | error x => simp [fold_constants_body, h, bind, Except.bind]
  | ok n =>
    have ht := Expr.optimize_tag fold e n h
    have hb1 : is_binop n = false := by simp only [is_binop, ht] at hb ⊢; exact hb
    have hr1 : is_binrel n = false := by simp only [is_binrel, ht] at hr ⊢; exact hr
    simp [fold_constants_body, h, bind, Except.bind, hb1, hr1, pure, Except.pure]

/-- Every node is a binary operation, a binary relation, or a node on which
both tag tests of `fold_constants` fail. -/
theorem Expr.binary_cases (e : Expr) :
    (∃ op pos type l r, e = .binop op pos type l r) ∨
    (∃ rel pos type l r, e = .binrel rel pos type l r) ∨
    (is_binop e = false ∧ is_binrel e = false) := by
  cases e with
  | binop op pos type l r => exact Or.inl ⟨op, pos, type, l, r, rfl⟩
  | binrel rel pos type l r => exact Or.inr (Or.inl ⟨rel, pos, type, l, r, rfl⟩)
  | abstract_class k pos type => cases k <;> exact Or.inr (Or.inr ⟨rfl, rfl⟩)
  | _ => exact Or.inr (Or.inr ⟨rfl, rfl⟩)

/-- The body of `fold_constants` does not deepen the node, when the recursive
calls do not. -/
theorem fold_constants_body_depth (env : Env) (fold : Expr → Except Fault Expr)
    (hf : ∀ e r, fold e = .ok r → r.depth ≤ e.depth) (e res : Expr)
    (h : fold_constants_body env fold e = .ok res) : res.depth ≤ e.depth := by
  rcases Expr.binary_cases e with ⟨op, pos, type, l, r, rfl⟩ | ⟨rel, pos, type, l, r, rfl⟩ |
    ⟨hb, hr⟩
  · rw [fold_constants_body_binop] at h
    simp only [bind_eq_ok] at h
    obtain ⟨l1, hl1, r1, hr1, l2, hl2, r2, hr2, hres⟩ := h
    have := hf _ _ hl1
    have := hf _ _ hr1
    have := hf _ _ hl2
    have := hf _ _ hr2
    rcases fold_binop_shape env op pos type l2 r2 res hres with rfl | ⟨v, rfl⟩ | ⟨v, rfl⟩ <;>
      simp only [Expr.depth] <;> omega
  · rw [fold_constants_body_binrel] at h
    simp only [bind_eq_ok] at h
    obtain ⟨l1, hl1, r1, hr1, l2, hl2, r2, hr2, hres⟩ := h
    have := hf _ _ hl1
    have := hf _ _ hr1
    have := hf _ _ hl2
    have := hf _ _ hr2
    rcases fold_binrel_shape env rel pos type l2 r2 res hres with rfl | ⟨v, rfl⟩ <;>
      simp only [Expr.depth] <;> omega
  · rw [fold_constants_body_other env fold e hb hr] at h
    exact Expr.optimize_depth fold hf e res h

/-- The body of `fold_constants` only calls `fold` on strictly shallower
nodes. -/
theorem fold_constants_body_congr (env : Env) (f g : Expr → Except Fault Expr)
    (hf : ∀ e r, f e = .ok r → r.depth ≤ e.depth) (e : Expr)
    (h : ∀ x : Expr, x.depth < e.depth → f x = g x) :
    fold_constants_body env f e = fold_constants_body env g e := by
  have two : ∀ (op : Expr → Expr → Except Fault Expr) (l r : Expr),
      l.depth < e.depth → r.depth < e.depth →
      (f l >>= fun l1 => f r >>= fun r1 => f l1 >>= fun l2 => f r1 >>= fun r2 => op l2 r2) =
      (g l >>= fun l1 => g r >>= fun r1 => g l1 >>= fun l2 => g r1 >>= fun r2 => op l2 r2) := by
    intro op l r hl hr
    rw [← h l hl, ← h r hr]
    refine bind_congr_ok _ _ _ (fun l1 hl1 => bind_congr_ok _ _ _ (fun r1 hr1 => ?_))
    have d1 := hf _ _ hl1
    have d2 := hf _ _ hr1
    rw [← h l1 (by omega), ← h r1 (by omega)]
  rcases Expr.binary_cases e with ⟨op, pos, type, l, r, rfl⟩ | ⟨rel, pos, type, l, r, rfl⟩ |
    ⟨hb, hr⟩
  · rw [fold_constants_body_binop, fold_constants_body_binop]
    exact two _ l r (by simp only [Expr.depth]; omega) (by simp only [Expr.depth]; omega)
  · rw [fold_constants_body_binrel, fold_constants_body_binrel]
    exact two _ l r (by simp only [Expr.depth]; omega) (by simp only [Expr.depth]; omega)
  · rw [fold_constants_body_other env f e hb hr, fold_constants_body_other env g e hb hr]
    exact Expr.optimize_congr f g e h

/-- Folding never deepens an expression. -/
theorem fold_constants_fuel_depth (env : Env) :
    ∀ (n : Nat) (e r : Expr), fold_constants_fuel env n e = .ok r → r.depth ≤ e.depth := by
  intro n
  induction n with
  | zero => intro e r h; cases h
  | succ n ih => intro e r h; exact fold_constants_body_depth env _ ih e r h

/-- One more unit of fuel changes nothing once the fuel exceeds the depth. -/
theorem fold_constants_fuel_succ (env : Env) :
    ∀ (n : Nat) (e : Expr), e.depth < n →
      fold_constants_fuel env (n + 1) e = fold_constants_fuel env n e := by
  intro n
  induction n with
  | zero => intro e h; omega
  | succ n ih =>
    intro e h
    show fold_constants_body env (fold_constants_fuel env (n + 1)) e =
      fold_constants_body env (fold_constants_fuel env n) e
    exact fold_constants_body_congr env _ _ (fold_constants_fuel_depth env (n + 1)) e
      (fun x hx => ih x (by omega))

/-- Any fuel above the depth of the node gives the result of `fold_constants`:
the bound never cuts the recursion short. -/
theorem fold_constants_fuel_eq (env : Env) :
    ∀ (n : Nat) (e : Expr), e.depth < n →
      fold_constants_fuel env n e = fold_constants env e := by
  intro n
  induction n with
  | zero => intro e h; omega
  | succ n ih =>
    intro e h
    by_cases hd : e.depth < n
    · rw [fold_constants_fuel_succ env n e hd]
      exact ih e hd
    · have : e.depth = n := by omega
      subst this
      rfl

/-- Folding never deepens an expression. -/
theorem fold_constants_depth (env : Env) (e r : Expr) (h : fold_constants env e = .ok r) :
    r.depth ≤ e.depth :=
  fold_constants_fuel_depth env _ e r h

/-- The recursive equation of `ast_optimizer::fold_constants`: the function is
its own body with itself as the recursive call. -/
theorem fold_constants_eq (env : Env) (e : Expr) :
    fold_constants env e = fold_constants_body env (fold_constants env) e := by
  show fold_constants_body env (fold_constants_fuel env e.depth) e = _
  exact fold_constants_body_congr env _ _ (fold_constants_fuel_depth env e.depth) e
    (fun x hx => fold_constants_fuel_eq env e.depth x hx)


/-- A bind in `Except` fails exactly when one of its two steps does. -/
theorem bind_eq_error {α β : Type} (x : Except Fault α) (f : α → Except Fault β) (F : Fault) :
    (x >>= f) = .error F ↔ x = .error F ∨ ∃ a, x = .ok a ∧ f a = .error F := by
  cases x with
  | error e => simp [bind, Except.bind]
  | ok a => simp [bind, Except.bind]

/-- A constant-classified node has a `long` value: `get_value<long>` does not
reach its `fatal` branch on it. -/
theorem get_value_long_of_is_const (env : Env) (e : Expr) (h : is_const env e = true) :
    ∃ v, get_value_long env e = .ok v := by
  cases e <;> simp only [is_const, Bool.false_eq_true] at h
  all_goals exact ⟨_, rfl⟩

/-- A constant-classified node has a `double` value: `get_value<double>` does
not reach its `fatal` branch on it. -/
theorem get_value_double_of_is_const (env : Env) (e : Expr) (h : is_const env e = true) :
    ∃ v, get_value_double env e = .ok v := by
  cases e <;> simp only [is_const, Bool.false_eq_true] at h
  all_goals exact ⟨_, rfl⟩

/-- Once the operands are folded, `fold_binop` can only stop in a division
trap. -/
theorem fold_binop_error (env : Env) (op : Binop) (pos : position_information) (type : Ty)
    (l r : Expr) (F : Fault) (h : fold_binop env .ok (.binop op pos type l r) = .error F) :
    F = .div_by_zero ∨ F = .div_overflow := by
  simp only [fold_binop, bind, Except.bind, pure, Except.pure] at h
  split_ifs at h with hc ht1 ht2
  · simp only [Bool.not_eq_true', Bool.and_eq_false_iff, not_or, Bool.not_eq_false] at hc
    obtain ⟨vl, hl⟩ := get_value_long_of_is_const env l hc.1
    obtain ⟨vr, hr⟩ := get_value_long_of_is_const env r hc.2
    simp only [hl, hr] at h
    cases op <;> simp only [long_div, long_mod] at h <;> try split_ifs at h
    all_goals first
      | (cases h; exact Or.inl rfl)
      | (cases h; exact Or.inr rfl)
      | cases h
  · simp only [Bool.not_eq_true', Bool.and_eq_false_iff, not_or, Bool.not_eq_false] at hc
    obtain ⟨vl, hl⟩ := get_value_double_of_is_const env l hc.1
    obtain ⟨vr, hr⟩ := get_value_double_of_is_const env r hc.2
    simp only [hl, hr] at h
    cases op <;> cases h

/-- Once the operands are folded, `fold_binrel` always returns a node. -/
theorem fold_binrel_no_error (env : Env) (rel : Binrel) (pos : position_information)
    (type : Ty) (l r : Expr) (F : Fault) :
    fold_binrel env .ok (.binrel rel pos type l r) ≠ .error F := by
  intro h
  simp only [fold_binrel, bind, Except.bind, pure, Except.pure] at h
  split_ifs at h with hc ht1
  simp only [Bool.not_eq_true', Bool.and_eq_false_iff, not_or, Bool.not_eq_false] at hc
  obtain ⟨vl, hl⟩ := get_value_long_of_is_const env l hc.1
  obtain ⟨vr, hr⟩ := get_value_long_of_is_const env r hc.2
  simp only [hl, hr] at h
  cases rel <;> cases h

/-- A fault of `ast_expr_list::optimize` comes from folding one of the
expressions of the list. -/
theorem ExprList.optimize_list_error (fold : Expr → Except Fault Expr) (F : Fault) :
    ∀ l : ExprList, ExprList.optimize fold l = .error F →
      ∃ x : Expr, x.depth ≤ l.depth ∧ fold x = .error F
  | .null, h => by cases h
  | .node pos p e, h => by
    simp only [ExprList.optimize, bind_eq_error, pure, Except.pure] at h
    rcases h with h | ⟨p1, _, h | ⟨e1, _, h⟩⟩
    · obtain ⟨x, hx, hF⟩ := ExprList.optimize_list_error fold F p h
      exact ⟨x, by simp only [ExprList.depth]; omega, hF⟩
    · exact ⟨e, by simp only [ExprList.depth]; omega, h⟩
    · cases h
  | .node_null pos p, h => by
    simp only [ExprList.optimize, bind_eq_error, pure, Except.pure] at h
    rcases h with h | ⟨p1, _, h⟩
    · obtain ⟨x, hx, hF⟩ := ExprList.optimize_list_error fold F p h
      exact ⟨x, by simp only [ExprList.depth]; omega, hF⟩
    · cases h

/-- A fault of a node's `optimize()` is the abstract-class `fatal` or comes
from folding a strictly shallower node. -/
theorem Expr.optimize_error (fold : Expr → Except Fault Expr) (F : Fault) (e : Expr)
    (h : Expr.optimize fold e = .error F) :
    F = .fatal_abstract ∨ ∃ x : Expr, x.depth < e.depth ∧ fold x = .error F := by
  cases e with
  | abstract_class k pos type => cases h; exact Or.inl rfl
  | ast_id pos type s => cases h
  | ast_integer pos v => cases h
  | ast_real pos v => cases h
  | ast_functioncall pos type id ps =>
    simp only [Expr.optimize, bind_eq_error, pure, Except.pure] at h
    rcases h with h | ⟨p1, _, h⟩
    · obtain ⟨x, hx, hF⟩ := ExprList.optimize_list_error fold F ps h
      exact Or.inr ⟨x, by simp only [Expr.depth]; omega, hF⟩
    · cases h
  | binop op pos type l r =>
    simp only [Expr.optimize, bind_eq_error, pure, Except.pure] at h
    rcases h with h | ⟨l1, _, h | ⟨r1, _, h⟩⟩
    · exact Or.inr ⟨l, by simp only [Expr.depth]; omega, h⟩
    · exact Or.inr ⟨r, by simp only [Expr.depth]; omega, h⟩
    · cases h
  | binrel rel pos type l r =>
    simp only [Expr.optimize, bind_eq_error, pure, Except.pure] at h
    rcases h with h | ⟨l1, _, h | ⟨r1, _, h⟩⟩
    · exact Or.inr ⟨l, by simp only [Expr.depth]; omega, h⟩
    · exact Or.inr ⟨r, by simp only [Expr.depth]; omega, h⟩
    · cases h
  | ast_indexed pos type id index =>
    simp only [Expr.optimize, bind_eq_error, pure, Except.pure] at h
    rcases h with h | ⟨e1, _, h⟩
    · exact Or.inr ⟨index, by simp only [Expr.depth]; omega, h⟩
    · cases h
  | ast_uminus pos type e =>
    simp only [Expr.optimize, bind_eq_error, pure, Except.pure] at h
    rcases h with h | ⟨e1, _, h⟩
    · exact Or.inr ⟨e, by simp only [Expr.depth]; omega, h⟩
    · cases h
  | ast_not pos type e =>
    simp only [Expr.optimize, bind_eq_error, pure, Except.pure] at h
    rcases h with h | ⟨e1, _, h⟩
    · exact Or.inr ⟨e, by simp only [Expr.depth]; omega, h⟩
    · cases h
  | ast_cast pos type e =>
    simp only [Expr.optimize, bind_eq_error, pure, Except.pure] at h
    rcases h with h | ⟨e1, _, h⟩
    · exact Or.inr ⟨e, by simp only [Expr.depth]; omega, h⟩
    · cases h

/-- Where a fault of the body of `fold_constants` comes from: the
abstract-class `fatal`, a division trap, or a recursive call on a strictly
shallower node. -/
theorem fold_constants_body_error (env : Env) (fold : Expr → Except Fault Expr)
    (hf : ∀ e r, fold e = .ok r → r.depth ≤ e.depth) (e : Expr) (F : Fault)
    (h : fold_constants_body env fold e = .error F) :
    F = .fatal_abstract ∨ F = .div_by_zero ∨ F = .div_overflow ∨
      ∃ x : Expr, x.depth < e.depth ∧ fold x = .error F := by
  have two : ∀ (dec : Expr → Expr → Except Fault Expr) (l r : Expr),
      l.depth < e.depth → r.depth < e.depth →
      (fold l >>= fun l1 => fold r >>= fun r1 => fold l1 >>= fun l2 => fold r1 >>= fun r2 =>
        dec l2 r2) = .error F →
      (∃ x : Expr, x.depth < e.depth ∧ fold x = .error F) ∨ ∃ l2 r2, dec l2 r2 = .error F := by
    intro dec l r hl hr h
    simp only [bind_eq_error] at h
    rcases h with h | ⟨l1, hl1, h | ⟨r1, hr1, h | ⟨l2, _, h | ⟨r2, _, h⟩⟩⟩⟩
    · exact Or.inl ⟨l, hl, h⟩
    · exact Or.inl ⟨r, hr, h⟩
    · exact Or.inl ⟨l1, by have := hf _ _ hl1; omega, h⟩
    · exact Or.inl ⟨r1, by have := hf _ _ hr1; omega, h⟩
    · exact Or.inr ⟨l2, r2, h⟩
  rcases Expr.binary_cases e with ⟨op, pos, type, l, r, rfl⟩ | ⟨rel, pos, type, l, r, rfl⟩ |
    ⟨hb, hr⟩
  · rw [fold_constants_body_binop] at h
    rcases two _ l r (by simp only [Expr.depth]; omega) (by simp only [Expr.depth]; omega) h
      with hx | ⟨l2, r2, hd⟩
    · exact Or.inr (Or.inr (Or.inr hx))
    · rcases fold_binop_error env op pos type l2 r2 F hd with rfl | rfl
      · exact Or.inr (Or.inl rfl)
      · exact Or.inr (Or.inr (Or.inl rfl))
  · rw [fold_constants_body_binrel] at h
    rcases two _ l r (by simp only [Expr.depth]; omega) (by simp only [Expr.depth]; omega) h
      with hx | ⟨l2, r2, hd⟩
    · exact Or.inr (Or.inr (Or.inr hx))
    · exact absurd hd (fold_binrel_no_error env rel pos type l2 r2 F)
  · rw [fold_constants_body_other env fold e hb hr] at h
    rcases Expr.optimize_error fold F e h with rfl | hx
    · exact Or.inl rfl
    · exact Or.inr (Or.inr (Or.inr hx))

/-- With fuel above the depth of the node the bound is never what stops the
recursion. -/
theorem fold_constants_fuel_ne_out_of_fuel (env : Env) :
    ∀ (n : Nat) (e : Expr), e.depth < n → fold_constants_fuel env n e ≠ .error .out_of_fuel := by
  intro n
  induction n with
  | zero => intro e h; omega
  | succ n ih =>
    intro e h hF
    rcases fold_constants_body_error env _ (fold_constants_fuel_depth env n) e _ hF with
      h1 | h1 | h1 | ⟨x, hx, h1⟩
    · cases h1
    · cases h1
    · cases h1
    · exact ih x (by omega) h1

/-- The function `fold_constants` is total in the sense that matters: the
depth bound is never what stops it. -/
theorem fold_constants_ne_out_of_fuel (env : Env) (e : Expr) :
    fold_constants env e ≠ .error .out_of_fuel :=
  fold_constants_fuel_ne_out_of_fuel env _ e (Nat.lt_succ_self _)

/-- Re-running `ast_expr_list::optimize` on its own result changes nothing,
when `fold` leaves its own results alone. -/
theorem ExprList.optimize_list_idem (fold : Expr → Except Fault Expr) :
    ∀ l l1 : ExprList, (∀ x r : Expr, x.depth ≤ l.depth → fold x = .ok r → fold r = .ok r) →
      ExprList.optimize fold l = .ok l1 → ExprList.optimize fold l1 = .ok l1
  | .null, l1, _, h => by
    simp only [ExprList.optimize, pure, Except.pure, Except.ok.injEq] at h
    subst h
    rfl
  | .node pos p e, l1, hid, h => by
    simp only [ExprList.optimize, bind_eq_ok, pure, Except.pure, Except.ok.injEq] at h
    obtain ⟨p1, hp, e1, he, rfl⟩ := h
    have hp1 := ExprList.optimize_list_idem fold p p1
      (fun x r hx => hid x r (by simp only [ExprList.depth]; omega)) hp
    have he1 := hid e e1 (by simp only [ExprList.depth]; omega) he
    simp only [ExprList.optimize, hp1, he1, bind, Except.bind, pure, Except.pure]
  | .node_null pos p, l1, hid, h => by
    simp only [ExprList.optimize, bind_eq_ok, pure, Except.pure, Except.ok.injEq] at h
    obtain ⟨p1, hp, rfl⟩ := h
    have hp1 := ExprList.optimize_list_idem fold p p1
      (fun x r hx => hid x r (by simp only [ExprList.depth]; omega)) hp
    simp only [ExprList.optimize, hp1, bind, Except.bind, pure, Except.pure]

/-- Re-running a node's `optimize()` on its own result changes nothing, when
`fold` leaves its own results alone. -/
theorem Expr.optimize_idem (fold : Expr → Except Fault Expr) (e e1 : Expr)
    (hid : ∀ x r : Expr, x.depth < e.depth → fold x = .ok r → fold r = .ok r)
    (h : Expr.optimize fold e = .ok e1) : Expr.optimize fold e1 = .ok e1 := by
  cases e with
  | abstract_class k pos type => cases h
  | ast_id pos type s => cases h; rfl
  | ast_integer pos v => cases h; rfl
  | ast_real pos v => cases h; rfl
  | ast_functioncall pos type id ps =>
    simp only [Expr.optimize, bind_eq_ok, pure, Except.pure, Except.ok.injEq] at h
    obtain ⟨ps1, hps, rfl⟩ := h
    have h1 := ExprList.optimize_list_idem fold ps ps1
      (fun x r hx => hid x r (by simp only [Expr.depth]; omega)) hps
    simp only [Expr.optimize, h1, bind, Except.bind, pure, Except.pure]
  | binop op pos type l r =>
    simp only [Expr.optimize, bind_eq_ok, pure, Except.pure, Except.ok.injEq] at h
    obtain ⟨l1, hl, r1, hr, rfl⟩ := h
    have h1 := hid l l1 (by simp only [Expr.depth]; omega) hl
    have h2 := hid r r1 (by simp only [Expr.depth]; omega) hr
    simp only [Expr.optimize, h1, h2, bind, Except.bind, pure, Except.pure]
  | binrel rel pos type l r =>
    simp only [Expr.optimize, bind_eq_ok, pure, Except.pure, Except.ok.injEq] at h
    obtain ⟨l1, hl, r1, hr, rfl⟩ := h
    have h1 := hid l l1 (by simp only [Expr.depth]; omega) hl
    have h2 := hid r r1 (by simp only [Expr.depth]; omega) hr
    simp only [Expr.optimize, h1, h2, bind, Except.bind, pure, Except.pure]
  | ast_indexed pos type id index =>
    simp only [Expr.optimize, bind_eq_ok, pure, Except.pure, Except.ok.injEq] at h
    obtain ⟨x1, hx, rfl⟩ := h
    have h1 := hid index x1 (by simp only [Expr.depth]; omega) hx
    simp only [Expr.optimize, h1, bind, Except.bind, pure, Except.pure]
  | ast_uminus pos type e =>
    simp only [Expr.optimize, bind_eq_ok, pure, Except.pure, Except.ok.injEq] at h
    obtain ⟨x1, hx, rfl⟩ := h
    have h1 := hid e x1 (by simp only [Expr.depth]; omega) hx
    simp only [Expr.optimize, h1, bind, Except.bind, pure, Except.pure]
  | ast_not pos type e =>
    simp only [Expr.optimize, bind_eq_ok, pure, Except.pure, Except.ok.injEq] at h
    obtain ⟨x1, hx, rfl⟩ := h
    have h1 := hid e x1 (by simp only [Expr.depth]; omega) hx
    simp only [Expr.optimize, h1, bind, Except.bind, pure, Except.pure]
  | ast_cast pos type e =>
    simp only [Expr.optimize, bind_eq_ok, pure, Except.pure, Except.ok.injEq] at h
    obtain ⟨x1, hx, rfl⟩ := h
    have h1 := hid e x1 (by simp only [Expr.depth]; omega) hx
    simp only [Expr.optimize, h1, bind, Except.bind, pure, Except.pure]

/-- An integer literal folds to itself. -/
theorem fold_constants_integer (env : Env) (pos : position_information) (v : Int) :
    fold_constants env (.ast_integer pos v) = .ok (.ast_integer pos v) := rfl

/-- A real literal folds to itself. -/
theorem fold_constants_real (env : Env) (pos : position_information) (v : Double) :
    fold_constants env (.ast_real pos v) = .ok (.ast_real pos v) := rfl

/-- An identifier folds to itself. -/
theorem fold_constants_id (env : Env) (pos : position_information) (type : Ty) (s : Nat) :
    fold_constants env (.ast_id pos type s) = .ok (.ast_id pos type s) := rfl

/-- Folding a folded expression again returns it unchanged, for expressions of
depth below `n`. -/
theorem fold_constants_idem_below (env : Env) :
    ∀ (n : Nat) (e e1 : Expr), e.depth < n → fold_constants env e = .ok e1 →
      fold_constants env e1 = .ok e1 := by
  intro n
  induction n with
  | zero => intro e e1 h; omega
  | succ n ih =>
    intro e e1 hd h
    rw [fold_constants_eq] at h
    rcases Expr.binary_cases e with ⟨op, pos, type, l, r, rfl⟩ | ⟨rel, pos, type, l, r, rfl⟩ |
      ⟨hb, hr⟩
    · rw [fold_constants_body_binop] at h
      simp only [bind_eq_ok] at h
      obtain ⟨l1, hl1, r1, hr1, l2, hl2, r2, hr2, hres⟩ := h
      simp only [Expr.depth] at hd
      have il := ih l l1 (by omega) hl1
      have ir := ih r r1 (by omega) hr1
      rw [il] at hl2
      rw [ir] at hr2
      cases hl2
      cases hr2
      rcases fold_binop_shape env op pos type l1 r1 e1 hres with rfl | ⟨v, rfl⟩ | ⟨v, rfl⟩
      · rw [fold_constants_eq, fold_constants_body_binop]
        simp only [il, ir, bind, Except.bind]
        exact hres
      · rfl
      · rfl
    · rw [fold_constants_body_binrel] at h
      simp only [bind_eq_ok] at h
      obtain ⟨l1, hl1, r1, hr1, l2, hl2, r2, hr2, hres⟩ := h
      simp only [Expr.depth] at hd
      have il := ih l l1 (by omega) hl1
      have ir := ih r r1 (by omega) hr1
      rw [il] at hl2
      rw [ir] at hr2
      cases hl2
      cases hr2
      rcases fold_binrel_shape env rel pos type l1 r1 e1 hres with rfl | ⟨v, rfl⟩
      · rw [fold_constants_eq, fold_constants_body_binrel]
        simp only [il, ir, bind, Except.bind]
        exact hres
      · rfl
    · rw [fold_constants_body_other env _ e hb hr] at h
      have ht := Expr.optimize_tag _ e e1 h
      have hb1 : is_binop e1 = false := by simp only [is_binop, ht] at hb ⊢; exact hb
      have hr1 : is_binrel e1 = false := by simp only [is_binrel, ht] at hr ⊢; exact hr
      rw [fold_constants_eq, fold_constants_body_other env _ e1 hb1 hr1]
      exact Expr.optimize_idem _ e e1 (fun x r hx => ih x r (by omega)) h

/-- Folding a folded expression again returns it unchanged. -/
theorem fold_constants_idem (env : Env) (e e1 : Expr) (h : fold_constants env e = .ok e1) :
    fold_constants env e1 = .ok e1 :=
  fold_constants_idem_below env (e.depth + 1) e e1 (Nat.lt_succ_self _) h

/-- Folding a binary operation: the second folding of the operands inside
`fold_binop` returns them unchanged, so the node is decided on the operands
folded once. -/
theorem fold_constants_binop (env : Env) (op : Binop) (pos : position_information) (type : Ty)
    (l r : Expr) :
    fold_constants env (.binop op pos type l r) =
      (fold_constants env l >>= fun l1 => fold_constants env r >>= fun r1 =>
        fold_binop env .ok (.binop op pos type l1 r1)) := by
  rw [fold_constants_eq, fold_constants_body_binop]
  refine bind_congr_ok _ _ _ (fun l1 hl1 => bind_congr_ok _ _ _ (fun r1 hr1 => ?_))
  rw [fold_constants_idem env l l1 hl1, fold_constants_idem env r r1 hr1]
  rfl

/-- Folding a binary relation: as `fold_constants_binop`, with `fold_binrel`
deciding. -/
theorem fold_constants_binrel (env : Env) (rel : Binrel) (pos : position_information)
    (type : Ty) (l r : Expr) :
    fold_constants env (.binrel rel pos type l r) =
      (fold_constants env l >>= fun l1 => fold_constants env r >>= fun r1 =>
        fold_binrel env .ok (.binrel rel pos type l1 r1)) := by
  rw [fold_constants_eq, fold_constants_body_binrel]
  refine bind_congr_ok _ _ _ (fun l1 hl1 => bind_congr_ok _ _ _ (fun r1 hr1 => ?_))
  rw [fold_constants_idem env l l1 hl1, fold_constants_idem env r r1 hr1]
  rfl

/-- The method `fold_binop` called on a binary operation, with
`fold_constants` as its recursive call, returns what `fold_constants` returns
for that node. -/
theorem fold_binop_fold_constants (env : Env) (op : Binop) (pos : position_information)
    (type : Ty) (l r : Expr) :
    fold_binop env (fold_constants env) (.binop op pos type l r) =
      fold_constants env (.binop op pos type l r) := by
  rw [fold_constants_binop, fold_binop_eq]

/-- The method `fold_binrel` called on a binary relation, with
`fold_constants` as its recursive call, returns what `fold_constants` returns
for that node. -/
theorem fold_binrel_fold_constants (env : Env) (rel : Binrel) (pos : position_information)
    (type : Ty) (l r : Expr) :
    fold_binrel env (fold_constants env) (.binrel rel pos type l r) =
      fold_constants env (.binrel rel pos type l r) := by
  rw [fold_constants_binrel, fold_binrel_eq]

/-! ## The claims -/

/-- A constant-classified node of the integer fragment is integer-typed, and
the value `get_value<long>` extracts from it is its run-time value, when the
run-time environment agrees with the symbol table on constants. -/
theorem get_value_long_eq_eval (env : Env) (rho : Nat → Int)
    (hrho : ∀ s, env.sym_tab.get_symbol_tag s = .SYM_CONST → rho s = env.sym_tab.const_ival s)
    (e : Expr) (hi : int_expr e = true) (hc : is_const env e = true) :
    e.type = .integer_type ∧ get_value_long env e = eval_long rho e := by
  cases e <;> simp only [is_const, Bool.false_eq_true] at hc
  · rename_i pos type s
    simp only [int_expr, decide_eq_true_eq] at hi
    simp only [decide_eq_true_eq] at hc
    exact ⟨hi, by simp only [get_value_long, eval_long, hrho s hc]⟩
  · exact ⟨rfl, rfl⟩
  · simp only [int_expr, Bool.false_eq_true] at hi

/-- Deciding on an integer binary operation keeps its run-time value. -/
theorem fold_binop_eval (env : Env) (rho : Nat → Int)
    (hrho : ∀ s, env.sym_tab.get_symbol_tag s = .SYM_CONST → rho s = env.sym_tab.const_ival s)
    (op : Binop) (pos : position_information) (type : Ty) (l r res : Expr)
    (hop : op ≠ .divide) (hl : int_expr l = true) (hr : int_expr r = true)
    (h : fold_binop env .ok (.binop op pos type l r) = .ok res) :
    int_expr res = true ∧ eval_long rho res = eval_long rho (.binop op pos type l r) := by
  have hnode : int_expr (.binop op pos type l r) = true := by
    simp only [int_expr, hl, hr, Bool.and_true, decide_eq_true_eq]
    exact hop
  simp only [fold_binop, bind, Except.bind, pure, Except.pure] at h
  split_ifs at h with hc ht1 ht2
  · cases h; exact ⟨hnode, rfl⟩
  · simp only [Bool.not_eq_true', Bool.and_eq_false_iff, not_or, Bool.not_eq_false] at hc
    obtain ⟨_, hvl⟩ := get_value_long_eq_eval env rho hrho l hl hc.1
    obtain ⟨_, hvr⟩ := get_value_long_eq_eval env rho hrho r hr hc.2
    obtain ⟨vl, hl1⟩ := get_value_long_of_is_const env l hc.1
    obtain ⟨vr, hr1⟩ := get_value_long_of_is_const env r hc.2
    have el : eval_long rho l = .ok vl := by rw [← hvl, hl1]
    have er : eval_long rho r = .ok vr := by rw [← hvr, hr1]
    simp only [hl1, hr1] at h
    cases op with
    | divide => exact absurd rfl hop
    | idiv =>
      cases hq : long_div vl vr with
      | error F => simp only [hq] at h; cases h
      | ok q =>
        simp only [hq] at h
        cases h
        exact ⟨rfl, by simp only [eval_long, el, er, bind, Except.bind, native_binop, hq]⟩
    | mod =>
      cases hq : long_mod vl vr with
      | error F => simp only [hq] at h; cases h
      | ok q =>
        simp only [hq] at h
        cases h
        exact ⟨rfl, by simp only [eval_long, el, er, bind, Except.bind, native_binop, hq]⟩
    | _ =>
      cases h
      exact ⟨rfl, by simp only [eval_long, el, er, bind, Except.bind, native_binop]⟩
  · simp only [Bool.not_eq_true', Bool.and_eq_false_iff, not_or, Bool.not_eq_false] at hc
    obtain ⟨t1, _⟩ := get_value_long_eq_eval env rho hrho l hl hc.1
    obtain ⟨t2, _⟩ := get_value_long_eq_eval env rho hrho r hr hc.2
    exact absurd ⟨t1, t2⟩ ht1
  · cases h; exact ⟨hnode, rfl⟩

/-- Deciding on an integer binary relation keeps its run-time value. -/
theorem fold_binrel_eval (env : Env) (rho : Nat → Int)
    (hrho : ∀ s, env.sym_tab.get_symbol_tag s = .SYM_CONST → rho s = env.sym_tab.const_ival s)
    (rel : Binrel) (pos : position_information) (type : Ty) (l r res : Expr)
    (hl : int_expr l = true) (hr : int_expr r = true)
    (h : fold_binrel env .ok (.binrel rel pos type l r) = .ok res) :
    int_expr res = true ∧ eval_long rho res = eval_long rho (.binrel rel pos type l r) := by
  have hnode : int_expr (.binrel rel pos type l r) = true := by
    simp only [int_expr, hl, hr, Bool.and_true]
  simp only [fold_binrel, bind, Except.bind, pure, Except.pure] at h
  split_ifs at h with hc ht1
  · cases h; exact ⟨hnode, rfl⟩
  · simp only [Bool.not_eq_true', Bool.and_eq_false_iff, not_or, Bool.not_eq_false] at hc
    obtain ⟨_, hvl⟩ := get_value_long_eq_eval env rho hrho l hl hc.1
    obtain ⟨_, hvr⟩ := get_value_long_eq_eval env rho hrho r hr hc.2
    obtain ⟨vl, hl1⟩ := get_value_long_of_is_const env l hc.1
    obtain ⟨vr, hr1⟩ := get_value_long_of_is_const env r hc.2
    have el : eval_long rho l = .ok vl := by rw [← hvl, hl1]
    have er : eval_long rho r = .ok vr := by rw [← hvr, hr1]
    simp only [hl1, hr1] at h
    cases rel
    all_goals
      cases h
      exact ⟨rfl, by
        simp only [eval_long, el, er, bind, Except.bind, native_binrel, pure, Except.pure]⟩
  · cases h; exact ⟨hnode, rfl⟩

/-- Folding an expression of the integer fragment gives an expression of the
fragment with the same run-time value; by induction on the depth. -/
theorem fold_constants_eval_below (env : Env) (rho : Nat → Int)
    (hrho : ∀ s, env.sym_tab.get_symbol_tag s = .SYM_CONST → rho s = env.sym_tab.const_ival s) :
    ∀ (n : Nat) (e res : Expr), e.depth < n → int_expr e = true →
      fold_constants env e = .ok res →
      int_expr res = true ∧ eval_long rho res = eval_long rho e := by
  intro n
  induction n with
  | zero => intro e res h; omega
  | succ n ih =>
    intro e res hd hi h
    cases e <;> simp only [int_expr, Bool.false_eq_true] at hi
    case ast_integer pos v => cases h; exact ⟨rfl, rfl⟩
    case ast_id pos type s =>
      cases h
      exact ⟨by simpa only [int_expr] using hi, rfl⟩
    case binop op pos type l r =>
      simp only [Bool.and_eq_true, decide_eq_true_eq] at hi
      obtain ⟨⟨hop, hl⟩, hr⟩ := hi
      rw [fold_constants_binop] at h
      simp only [bind_eq_ok] at h
      obtain ⟨l1, hl1, r1, hr1, hres⟩ := h
      simp only [Expr.depth] at hd
      obtain ⟨il, el⟩ := ih l l1 (by omega) hl hl1
      obtain ⟨ir, er⟩ := ih r r1 (by omega) hr hr1
      obtain ⟨i, e⟩ := fold_binop_eval env rho hrho op pos type l1 r1 res hop il ir hres
      exact ⟨i, by rw [e]; simp only [eval_long, el, er]⟩
    case binrel rel pos type l r =>
      simp only [Bool.and_eq_true] at hi
      obtain ⟨hl, hr⟩ := hi
      rw [fold_constants_binrel] at h
      simp only [bind_eq_ok] at h
      obtain ⟨l1, hl1, r1, hr1, hres⟩ := h
      simp only [Expr.depth] at hd
      obtain ⟨il, el⟩ := ih l l1 (by omega) hl hl1
      obtain ⟨ir, er⟩ := ih r r1 (by omega) hr hr1
      obtain ⟨i, e⟩ := fold_binrel_eval env rho hrho rel pos type l1 r1 res il ir hres
      exact ⟨i, by rw [e]; simp only [eval_long, el, er]⟩

/-- Claim C1. Folding preserves meaning: for every expression `e` of the
integer fragment (integer literals, integer-typed identifiers, add, sub, mult,
integer-divide, mod, and, or and the four relations) and every run-time
environment `rho` that gives each CONST identifier the value stored for it in
the symbol table, whenever `fold_constants e` completes with `res`, evaluating
`res` under the native integer semantics gives what evaluating `e` gives. -/
theorem C1_fold_preserves_meaning (env : Env) (rho : Nat → Int) (e res : Expr)
    (hrho : ∀ s, env.sym_tab.get_symbol_tag s = .SYM_CONST → rho s = env.sym_tab.const_ival s)
    (hi : int_expr e = true) (h : fold_constants env e = .ok res) :
    eval_long rho res = eval_long rho e :=
  (fold_constants_eval_below env rho hrho (e.depth + 1) e res (Nat.lt_succ_self _) hi h).2

/-- Witness for C1: `x + FOO * 3` folds to `x + 6`, and both evaluate to 13
when `x` holds 7. -/
theorem C1_witness :
    int_expr (.binop .add (at_ 1 3) .integer_type var_x
        (.binop .mult (at_ 1 9) .integer_type FOO (lit 11 3))) = true ∧
      fold_constants env0 (.binop .add (at_ 1 3) .integer_type var_x
        (.binop .mult (at_ 1 9) .integer_type FOO (lit 11 3))) =
        .ok (.binop .add (at_ 1 3) .integer_type var_x (.ast_integer (at_ 1 9) 6)) ∧
      eval_long rho0 (.binop .add (at_ 1 3) .integer_type var_x (.ast_integer (at_ 1 9) 6)) =
        eval_long rho0 (.binop .add (at_ 1 3) .integer_type var_x
          (.binop .mult (at_ 1 9) .integer_type FOO (lit 11 3))) :=
  ⟨by decide, by decide,
    C1_fold_preserves_meaning env0 rho0 _ _
      (fun s hs => by
        have h0 : s = 0 := by
          by_contra hne
          simp [env0, sym_tab0, hne] at hs
        subst h0
        rfl)
      (by decide) (by decide)⟩

/-- A tree of integer literals and integer operators whose evaluation yields a
value folds to the literal of that value at the position of its root; by
induction on the depth. -/
theorem fold_constants_literal_tree_below (env : Env) (rho : Nat → Int) :
    ∀ (n : Nat) (e : Expr) (v : Int), e.depth < n → literal_tree e = true →
      eval_long rho e = .ok v → fold_constants env e = .ok (.ast_integer e.pos v) := by
  intro n
  induction n with
  | zero => intro e v h; omega
  | succ n ih =>
    intro e v hd ht hv
    cases e <;> simp only [literal_tree, Bool.false_eq_true] at ht
    case ast_integer pos w => cases hv; rfl
    case binop op pos type l r =>
      simp only [Bool.and_eq_true, decide_eq_true_eq] at ht
      obtain ⟨⟨hop, hl⟩, hr⟩ := ht
      simp only [eval_long, bind_eq_ok] at hv
      obtain ⟨a, ha, b, hb, hv⟩ := hv
      simp only [Expr.depth] at hd
      rw [fold_constants_binop, ih l a (by omega) hl ha, ih r b (by omega) hr hb]
      cases op with
      | divide => exact absurd rfl hop
      | idiv =>
        simp only [native_binop] at hv
        simp [fold_binop, is_const, Expr.type, get_value_long, bind, Except.bind, hv, pure,
          Except.pure, Expr.pos]
      | mod =>
        simp only [native_binop] at hv
        simp [fold_binop, is_const, Expr.type, get_value_long, bind, Except.bind, hv, pure,
          Except.pure, Expr.pos]
      | _ =>
        simp only [native_binop, Except.ok.injEq] at hv
        simp [fold_binop, is_const, Expr.type, get_value_long, bind, Except.bind, hv, pure,
          Except.pure, Expr.pos]

/-- Claim C2, as amended. Complete folding in one pass: for every expression
tree, of any nesting depth, whose leaves are all integer literals and whose
inner nodes are all add, sub, mult, and, or, integer-divide or mod, and whose
evaluation yields a value `v` (no zero divisor and no `LONG_MIN div -1` arises),
a single call of `fold_constants` returns the integer literal `v`, placed at the
position of the root. -/
theorem C2_literal_tree_folds_completely (env : Env) (rho : Nat → Int) (e : Expr) (v : Int)
    (ht : literal_tree e = true) (hv : eval_long rho e = .ok v) :
    fold_constants env e = .ok (.ast_integer e.pos v) :=
  fold_constants_literal_tree_below env rho (e.depth + 1) e v (Nat.lt_succ_self _) ht hv

/-- Witness for C2: `(2 + 3) * (4 + 5)` is a literal tree of value 45 and folds
to the single integer literal 45. -/
theorem C2_witness :
    literal_tree scenario_D = true ∧ eval_long rho0 scenario_D = .ok 45 ∧
      fold_constants env0 scenario_D = .ok (.ast_integer (at_ 1 9) 45) :=
  ⟨by decide, by decide,
    C2_literal_tree_folds_completely env0 rho0 scenario_D 45 (by decide) (by decide)⟩

/-- Counterexample to C2 as stated: `((0 - 9223372036854775807) - 1) div (0 - 1)`
is a tree of integer literals under sub and integer-divide in which no zero
divisor arises, yet `fold_constants` does not return an integer literal: the
host division `LONG_MIN / -1` traps. -/
theorem C2_counterexample :
    literal_tree min_div_minus_one = true ∧
      zero_divisor_arises rho0 min_div_minus_one = false ∧
      fold_constants env0 min_div_minus_one = .error .div_overflow ∧
      ¬ ∃ pos v, fold_constants env0 min_div_minus_one = .ok (.ast_integer pos v) := by
  refine ⟨by decide, by decide, by decide, ?_⟩
  rintro ⟨pos, v, h⟩
  have h2 : fold_constants env0 min_div_minus_one = .error .div_overflow := by decide
  rw [h2] at h
  cases h

/-- The reduction `wrap_long` is two's-complement wrap-around: the result is a
`long`, differs from the argument by a multiple of `2 ^ 64`, and is the
argument itself when that already is a `long`. -/
theorem wrap_long_spec (x : Int) :
    (LONG_MIN ≤ wrap_long x ∧ wrap_long x ≤ LONG_MAX) ∧
      (2 : Int) ^ 64 ∣ (wrap_long x - x) ∧
      (LONG_MIN ≤ x → x ≤ LONG_MAX → wrap_long x = x) := by
  simp only [wrap_long, LONG_MIN, LONG_MAX]
  refine ⟨by omega, ?_, by intro h1 h2; omega⟩
  exact ⟨-((x + 2 ^ 63) / 2 ^ 64), by omega⟩

/-- A node the classifier accepts folds to itself. -/
theorem fold_constants_of_is_const (env : Env) (e : Expr) (h : is_const env e = true) :
    fold_constants env e = .ok e := by
  cases e <;> simp only [is_const, Bool.false_eq_true] at h
  all_goals rfl

/-- Claim C3. For every binary operation node with operator add, sub, mult,
and, or whose two operands are integer literals `lv` and `rv`, `fold_binop`
returns an integer literal at the node's position: `lv + rv`, `lv - rv`,
`lv * rv` in signed 64-bit machine arithmetic (wrap-around, the exact result
whenever that fits) for add, sub, mult, and for and / or the value 1 when
`lv ≠ 0 ∧ rv ≠ 0` resp. `lv ≠ 0 ∨ rv ≠ 0` holds and 0 otherwise. -/
theorem C3_fold_binop_integer_literals (env : Env) (pos p1 p2 : position_information)
    (type : Ty) (lv rv : Int) :
    (fold_binop env (fold_constants env)
        (.binop .add pos type (.ast_integer p1 lv) (.ast_integer p2 rv)) =
        .ok (.ast_integer pos (wrap_long (lv + rv))) ∧
      fold_binop env (fold_constants env)
        (.binop .sub pos type (.ast_integer p1 lv) (.ast_integer p2 rv)) =
        .ok (.ast_integer pos (wrap_long (lv - rv))) ∧
      fold_binop env (fold_constants env)
        (.binop .mult pos type (.ast_integer p1 lv) (.ast_integer p2 rv)) =
        .ok (.ast_integer pos (wrap_long (lv * rv))) ∧
      fold_binop env (fold_constants env)
        (.binop .and pos type (.ast_integer p1 lv) (.ast_integer p2 rv)) =
        .ok (.ast_integer pos (if lv ≠ 0 ∧ rv ≠ 0 then 1 else 0)) ∧
      fold_binop env (fold_constants env)
        (.binop .or pos type (.ast_integer p1 lv) (.ast_integer p2 rv)) =
        .ok (.ast_integer pos (if lv ≠ 0 ∨ rv ≠ 0 then 1 else 0))) ∧
    (∀ x : Int, (LONG_MIN ≤ wrap_long x ∧ wrap_long x ≤ LONG_MAX) ∧
      (2 : Int) ^ 64 ∣ (wrap_long x - x) ∧
      (LONG_MIN ≤ x → x ≤ LONG_MAX → wrap_long x = x)) := by
  refine ⟨⟨rfl, rfl, rfl, ?_, ?_⟩, wrap_long_spec⟩
  · show Except.ok (Expr.ast_integer pos (long_and lv rv)) = _
    by_cases h1 : lv = 0 <;> by_cases h2 : rv = 0 <;> simp [long_and, long_of_bool, h1, h2]
  · show Except.ok (Expr.ast_integer pos (long_or lv rv)) = _
    by_cases h1 : lv = 0 <;> by_cases h2 : rv = 0 <;> simp [long_or, long_of_bool, h1, h2]

/-- The remainder of the truncating division is smaller in magnitude than the
divisor, no larger in magnitude than the dividend, and has the sign of the
dividend. -/
theorem tmod_facts (a b : Int) (hb : b ≠ 0) :
    |a.tmod b| < |b| ∧ |a.tmod b| ≤ |a| ∧ (0 ≤ a → 0 ≤ a.tmod b) ∧ (a ≤ 0 → a.tmod b ≤ 0) := by
  have key : ∀ (m : Nat) (c : Int), c ≠ 0 →
      0 ≤ Int.tmod m c ∧ Int.tmod m c < |c| ∧ Int.tmod m c ≤ m := by
    intro m c hc
    have hle : ∀ n : Nat, Int.tmod m n ≤ m := by
      intro n
      rw [← Int.ofNat_tmod]
      exact Int.ofNat_le.2 (Nat.mod_le m n)
    refine ⟨Int.tmod_nonneg _ (Int.ofNat_nonneg m), ?_, ?_⟩
    · rcases lt_or_gt_of_ne hc with h | h
      · rw [abs_of_neg h, ← Int.tmod_neg]
        exact Int.tmod_lt_of_pos _ (by omega)
      · rw [abs_of_pos h]
        exact Int.tmod_lt_of_pos _ h
    · rcases le_total 0 c with h | h
      · obtain ⟨n, rfl⟩ := Int.eq_ofNat_of_zero_le h
        exact hle n
      · obtain ⟨n, hn⟩ := Int.eq_ofNat_of_zero_le (show 0 ≤ -c by omega)
        rw [← Int.tmod_neg, hn]
        exact hle n
  have negm : ∀ x y : Int, (-x).tmod y = -(x.tmod y) := by
    intro x y
    rw [Int.tmod_def, Int.tmod_def, Int.neg_tdiv]
    ring
  rcases le_total 0 a with ha | ha
  · obtain ⟨m, rfl⟩ := Int.eq_ofNat_of_zero_le ha
    obtain ⟨k1, k2, k3⟩ := key m b hb
    refine ⟨by rw [abs_of_nonneg k1]; exact k2,
      by rw [abs_of_nonneg k1, abs_of_nonneg ha]; exact k3, fun _ => k1, fun h => ?_⟩
    have : (m : Int) = 0 := by omega
    rw [this]; simp
  · obtain ⟨m, hm⟩ := Int.eq_ofNat_of_zero_le (show 0 ≤ -a by omega)
    obtain ⟨k1, k2, k3⟩ := key m b hb
    have : a = -(m : Int) := by omega
    subst this
    rw [negm]
    refine ⟨by rw [abs_neg, abs_of_nonneg k1]; exact k2,
      by rw [abs_neg, abs_neg, abs_of_nonneg k1, abs_of_nonneg (Int.ofNat_nonneg m)]; exact k3,
      fun h => ?_, fun _ => by omega⟩
    have : (m : Int) = 0 := by omega
    rw [this]; simp

/-- Claim C4. For every integer-divide or mod node whose operands are integer
constants (integer literals or integer-typed CONST identifiers) with values
`lv` and `rv`, `rv ≠ 0`, and not the overflowing pair `LONG_MIN`, `-1`,
`fold_binop` returns the integer literal `q` resp. `r` of the host division:
`q = lv.tdiv rv` is the quotient truncated toward zero (`|q * rv| ≤ |lv|`,
short of `|lv|` by less than `|rv|`), `r` has the sign of `lv`, `|r| < |rv|`,
and `lv = q * rv + r`. -/
theorem C4_fold_binop_idiv_mod (env : Env) (pos : position_information) (type : Ty)
    (l r : Expr) (lv rv : Int)
    (hcl : is_const env l = true) (htl : l.type = .integer_type)
    (hvl : get_value_long env l = .ok lv)
    (hcr : is_const env r = true) (htr : r.type = .integer_type)
    (hvr : get_value_long env r = .ok rv)
    (h0 : rv ≠ 0) (hov : ¬ (lv = LONG_MIN ∧ rv = -1)) :
    fold_binop env (fold_constants env) (.binop .idiv pos type l r) =
        .ok (.ast_integer pos (lv.tdiv rv)) ∧
      fold_binop env (fold_constants env) (.binop .mod pos type l r) =
        .ok (.ast_integer pos (lv.tmod rv)) ∧
      lv = lv.tdiv rv * rv + lv.tmod rv ∧
      |lv.tmod rv| < |rv| ∧
      (0 ≤ lv → 0 ≤ lv.tmod rv) ∧ (lv ≤ 0 → lv.tmod rv ≤ 0) ∧
      |lv.tdiv rv * rv| ≤ |lv| ∧ |lv| - |lv.tdiv rv * rv| < |rv| := by
  have e1 : lv = lv.tdiv rv * rv + lv.tmod rv := (Int.tdiv_add_tmod' lv rv).symm
  obtain ⟨f1, f2, f3, f4⟩ := tmod_facts lv rv h0
  have fl := fold_constants_of_is_const env l hcl
  have fr := fold_constants_of_is_const env r hcr
  refine ⟨?_, ?_, e1, f1, f3, f4, ?_⟩
  · rw [fold_binop_eq, fl, fr]
    simp [fold_binop, hcl, hcr, htl, htr, hvl, hvr, long_div, h0, hov, bind, Except.bind,
      pure, Except.pure]
  · rw [fold_binop_eq, fl, fr]
    simp [fold_binop, hcl, hcr, htl, htr, hvl, hvr, long_mod, h0, hov, bind, Except.bind,
      pure, Except.pure]
  · generalize lv.tdiv rv * rv = p at e1
    generalize lv.tmod rv = m at e1 f1 f2 f3 f4
    rcases le_total 0 lv with h | h
    · have := f3 h
      rw [abs_of_nonneg this] at f1 f2
      rw [abs_of_nonneg h] at f2 ⊢
      rw [abs_of_nonneg (show 0 ≤ p by omega)]
      constructor <;> omega
    · have := f4 h
      rw [abs_of_nonpos this] at f1 f2
      rw [abs_of_nonpos h] at f2 ⊢
      rw [abs_of_nonpos (show p ≤ 0 by omega)]
      constructor <;> omega

/-- Witness for C4: `7 div 2` folds to `3`, `-7 div 2` folds to `-3` and
`-7 mod 2` folds to `-1`. -/
theorem C4_witness :
    fold_binop env0 (fold_constants env0)
        (.binop .idiv (at_ 1 4) .integer_type (lit 1 7) (lit 8 2)) =
        .ok (.ast_integer (at_ 1 4) 3) ∧
      fold_binop env0 (fold_constants env0)
        (.binop .idiv (at_ 1 4) .integer_type (lit 1 (-7)) (lit 8 2)) =
        .ok (.ast_integer (at_ 1 4) (-3)) ∧
      fold_binop env0 (fold_constants env0)
        (.binop .mod (at_ 1 4) .integer_type (lit 1 (-7)) (lit 8 2)) =
        .ok (.ast_integer (at_ 1 4) (-1)) :=
  have hp := C4_fold_binop_idiv_mod env0 (at_ 1 4) .integer_type (lit 1 7) (lit 8 2) 7 2
    rfl rfl rfl rfl rfl rfl (by decide) (by decide)
  have hn := C4_fold_binop_idiv_mod env0 (at_ 1 4) .integer_type (lit 1 (-7)) (lit 8 2) (-7) 2
    rfl rfl rfl rfl rfl rfl (by decide) (by decide)
  ⟨hp.1, hn.1, hn.2.1⟩

/-- Claim C5. For every relation node (equal, not-equal, greater-than,
less-than) whose two operands are integer-typed constants with values `lv` and
`rv`, `fold_binrel` returns an integer literal at the node's position whose
value is 1 if the comparison of `lv` and `rv` holds and 0 otherwise; so the
value is never anything but 0 or 1. -/
theorem C5_fold_binrel_integer_constants (env : Env) (pos : position_information) (type : Ty)
    (l r : Expr) (lv rv : Int)
    (hcl : is_const env l = true) (htl : l.type = .integer_type)
    (hvl : get_value_long env l = .ok lv)
    (hcr : is_const env r = true) (htr : r.type = .integer_type)
    (hvr : get_value_long env r = .ok rv) :
    fold_binrel env (fold_constants env) (.binrel .equal pos type l r) =
        .ok (.ast_integer pos (if lv = rv then 1 else 0)) ∧
      fold_binrel env (fold_constants env) (.binrel .notequal pos type l r) =
        .ok (.ast_integer pos (if lv ≠ rv then 1 else 0)) ∧
      fold_binrel env (fold_constants env) (.binrel .greaterthan pos type l r) =
        .ok (.ast_integer pos (if lv > rv then 1 else 0)) ∧
      fold_binrel env (fold_constants env) (.binrel .lessthan pos type l r) =
        .ok (.ast_integer pos (if lv < rv then 1 else 0)) ∧
      ∀ rel, ∃ v, fold_binrel env (fold_constants env) (.binrel rel pos type l r) =
        .ok (.ast_integer pos v) ∧ (v = 0 ∨ v = 1) := by
  have fl := fold_constants_of_is_const env l hcl
  have fr := fold_constants_of_is_const env r hcr
  have key : ∀ rel, fold_binrel env (fold_constants env) (.binrel rel pos type l r) =
      .ok (.ast_integer pos (native_binrel rel lv rv)) := by
    intro rel
    rw [fold_binrel_eq, fl, fr]
    cases rel <;>
      simp [fold_binrel, hcl, hcr, htl, htr, hvl, hvr, bind, Except.bind, pure, Except.pure,
        native_binrel]
  refine ⟨?_, ?_, ?_, ?_, ?_⟩
  · rw [key]; simp only [native_binrel, long_of_bool, decide_eq_true_eq]
  · rw [key]; simp only [native_binrel, long_of_bool, decide_eq_true_eq]
  · rw [key]; simp only [native_binrel, long_of_bool, decide_eq_true_eq]
  · rw [key]; simp only [native_binrel, long_of_bool, decide_eq_true_eq]
  · intro rel
    refine ⟨_, key rel, ?_⟩
    cases rel <;> simp only [native_binrel, long_of_bool] <;> split_ifs <;> simp

/-- Witness for C5: `3 < FOO` with `FOO = 2` folds to 0, `FOO = 2` folds to 1. -/
theorem C5_witness :
    fold_binrel env0 (fold_constants env0)
        (.binrel .lessthan (at_ 1 3) .integer_type (lit 1 3) FOO) =
        .ok (.ast_integer (at_ 1 3) 0) ∧
      fold_binrel env0 (fold_constants env0)
        (.binrel .equal (at_ 1 3) .integer_type FOO (lit 9 2)) =
        .ok (.ast_integer (at_ 1 3) 1) :=
  ⟨(C5_fold_binrel_integer_constants env0 (at_ 1 3) .integer_type (lit 1 3) FOO 3 2
      rfl rfl rfl rfl rfl rfl).2.2.2.1,
    (C5_fold_binrel_integer_constants env0 (at_ 1 3) .integer_type FOO (lit 9 2) 2 2
      rfl rfl rfl rfl rfl rfl).1⟩

/-- Unless both folded operands are constant-classified, `fold_binop` returns
the node. -/
theorem fold_binop_blocked (env : Env) (op : Binop) (pos : position_information) (type : Ty)
    (l r : Expr) (h : (is_const env l && is_const env r) = false) :
    fold_binop env .ok (.binop op pos type l r) = .ok (.binop op pos type l r) := by
  simp [fold_binop, h, bind, Except.bind, pure, Except.pure]

/-- Unless both folded operands are constant-classified, `fold_binrel` returns
the node. -/
theorem fold_binrel_blocked (env : Env) (rel : Binrel) (pos : position_information)
    (type : Ty) (l r : Expr) (h : (is_const env l && is_const env r) = false) :
    fold_binrel env .ok (.binrel rel pos type l r) = .ok (.binrel rel pos type l r) := by
  simp [fold_binrel, h, bind, Except.bind, pure, Except.pure]

/-- When a folded operand is real-typed, `fold_binrel` returns the node. -/
theorem fold_binrel_real (env : Env) (rel : Binrel) (pos : position_information)
    (type : Ty) (l r : Expr) (h : l.type = .real_type ∨ r.type = .real_type) :
    fold_binrel env .ok (.binrel rel pos type l r) = .ok (.binrel rel pos type l r) := by
  have hn : ¬ (l.type = .integer_type ∧ r.type = .integer_type) := by
    rintro ⟨h1, h2⟩
    rcases h with h | h
    · rw [h1] at h; cases h
    · rw [h2] at h; cases h
  simp only [fold_binrel, bind, Except.bind, pure, Except.pure]
  split_ifs <;> rfl

/-- Claim C6. Real relations are never folded: for every relation node (equal,
not-equal, greater-than, less-than) at least one of whose operands is, after
folding, real-typed, `fold_constants` returns the relation node itself, with
the same operator tag and the folded operands, never a literal. -/
theorem C6_real_relations_never_folded (env : Env) (rel : Binrel)
    (pos : position_information) (type : Ty) (l r l1 r1 : Expr)
    (hl : fold_constants env l = .ok l1) (hr : fold_constants env r = .ok r1)
    (ht : l1.type = .real_type ∨ r1.type = .real_type) :
    fold_constants env (.binrel rel pos type l r) = .ok (.binrel rel pos type l1 r1) ∧
      (Expr.binrel rel pos type l1 r1).tag = (Expr.binrel rel pos type l r).tag ∧
      (Expr.binrel rel pos type l1 r1).tag ≠ .AST_INTEGER ∧
      (Expr.binrel rel pos type l1 r1).tag ≠ .AST_REAL := by
  refine ⟨?_, rfl, by cases rel <;> simp [Expr.tag, Binrel.tag],
    by cases rel <;> simp [Expr.tag, Binrel.tag]⟩
  rw [fold_constants_binrel, hl, hr]
  exact fold_binrel_real env rel pos type l1 r1 ht

/-- Witness for C6: a less-than relation between two real literals is returned
as it is. -/
theorem C6_witness :
    fold_constants env0
        (.binrel .lessthan (at_ 1 5) .integer_type (.ast_real (at_ 1 1) ⟨1⟩)
          (.ast_real (at_ 1 7) ⟨2⟩)) =
      .ok (.binrel .lessthan (at_ 1 5) .integer_type (.ast_real (at_ 1 1) ⟨1⟩)
          (.ast_real (at_ 1 7) ⟨2⟩)) :=
  (C6_real_relations_never_folded env0 .lessthan (at_ 1 5) .integer_type
    (.ast_real (at_ 1 1) ⟨1⟩) (.ast_real (at_ 1 7) ⟨2⟩) _ _ rfl rfl (Or.inl rfl)).1

/-- Claim C7. Unsupported combinations stay unfolded: for every binary
operation node whose two operands are constant but either have different
types (one integer, one real), or are both real with operator integer-divide
or mod, or are both integer with operator divide, `fold_binop` returns the
original node (same operator, not a literal) whose left and right fields hold
the folded children, which are the constants themselves. -/
theorem C7_unsupported_combinations_unfolded (env : Env) (op : Binop)
    (pos : position_information) (type : Ty) (l r : Expr)
    (hcl : is_const env l = true) (hcr : is_const env r = true)
    (h : (l.type = .integer_type ∧ r.type = .real_type) ∨
      (l.type = .real_type ∧ r.type = .integer_type) ∨
      (l.type = .real_type ∧ r.type = .real_type ∧ (op = .idiv ∨ op = .mod)) ∨
      (l.type = .integer_type ∧ r.type = .integer_type ∧ op = .divide)) :
    fold_binop env (fold_constants env) (.binop op pos type l r) =
        .ok (.binop op pos type l r) ∧
      fold_constants env l = .ok l ∧ fold_constants env r = .ok r := by
  have fl := fold_constants_of_is_const env l hcl
  have fr := fold_constants_of_is_const env r hcr
  refine ⟨?_, fl, fr⟩
  rw [fold_binop_eq, fl, fr]
  obtain ⟨vl, hvl⟩ := get_value_long_of_is_const env l hcl
  obtain ⟨vr, hvr⟩ := get_value_long_of_is_const env r hcr
  obtain ⟨dl, hdl⟩ := get_value_double_of_is_const env l hcl
  obtain ⟨dr, hdr⟩ := get_value_double_of_is_const env r hcr
  rcases h with ⟨h1, h2⟩ | ⟨h1, h2⟩ | ⟨h1, h2, rfl | rfl⟩ | ⟨h1, h2, rfl⟩ <;>
    simp [fold_binop, hcl, hcr, h1, h2, hvl, hvr, hdl, hdr, bind, Except.bind, pure,
      Except.pure]

/-- Witness for C7: the real division `7 / 2` of two integer literals and the
mixed sum `1 + 2.0` are returned unfolded. -/
theorem C7_witness :
    fold_binop env0 (fold_constants env0)
        (.binop .divide (at_ 1 3) .real_type (lit 1 7) (lit 5 2)) =
        .ok (.binop .divide (at_ 1 3) .real_type (lit 1 7) (lit 5 2)) ∧
      fold_binop env0 (fold_constants env0)
        (.binop .add (at_ 1 3) .real_type (lit 1 1) (.ast_real (at_ 1 5) ⟨2⟩)) =
        .ok (.binop .add (at_ 1 3) .real_type (lit 1 1) (.ast_real (at_ 1 5) ⟨2⟩)) :=
  ⟨(C7_unsupported_combinations_unfolded env0 .divide (at_ 1 3) .real_type (lit 1 7) (lit 5 2)
      rfl rfl (Or.inr (Or.inr (Or.inr ⟨rfl, rfl, rfl⟩)))).1,
    (C7_unsupported_combinations_unfolded env0 .add (at_ 1 3) .real_type (lit 1 1)
      (.ast_real (at_ 1 5) ⟨2⟩) rfl rfl (Or.inl ⟨rfl, rfl⟩)).1⟩

/-- Two integer-typed constant operands with the same value are
interchangeable on the left of a binary operation, as far as a literal result
goes. -/
theorem fold_binop_swap_left (env : Env) (op : Binop) (pos : position_information) (type : Ty)
    (a b o res : Expr) (v : Int)
    (hca : is_const env a = true) (hta : a.type = .integer_type)
    (hva : get_value_long env a = .ok v)
    (hcb : is_const env b = true) (htb : b.type = .integer_type)
    (hvb : get_value_long env b = .ok v)
    (hres : res.tag = .AST_INTEGER ∨ res.tag = .AST_REAL)
    (h : fold_binop env .ok (.binop op pos type a o) = .ok res) :
    fold_binop env .ok (.binop op pos type b o) = .ok res := by
  have hne : ∀ x y, Expr.binop op pos type x y ≠ res := by
    intro x y hxy
    subst hxy
    cases op <;> simp [Expr.tag, Binop.tag] at hres
  simp only [fold_binop, bind, Except.bind, pure, Except.pure, hca, hta, hva, Bool.true_and,
    true_and] at h
  simp only [fold_binop, bind, Except.bind, pure, Except.pure, hcb, htb, hvb, Bool.true_and,
    true_and]
  split_ifs at h ⊢ with h1 h2 h3
  · exact absurd (Except.ok.inj h) (hne _ _)
  · cases hv : get_value_long env o with
    | error F => simp only [hv] at h; cases h
    | ok w =>
      simp only [hv] at h ⊢
      cases op <;> first
        | exact h
        | exact absurd (Except.ok.inj h) (hne _ _)
  · cases h3.1
  · exact absurd (Except.ok.inj h) (hne _ _)

/-- Two integer-typed constant operands with the same value are
interchangeable on the right of a binary operation, as far as a literal result
goes. -/
theorem fold_binop_swap_right (env : Env) (op : Binop) (pos : position_information)
    (type : Ty) (a b o res : Expr) (v : Int)
    (hca : is_const env a = true) (hta : a.type = .integer_type)
    (hva : get_value_long env a = .ok v)
    (hcb : is_const env b = true) (htb : b.type = .integer_type)
    (hvb : get_value_long env b = .ok v)
    (hres : res.tag = .AST_INTEGER ∨ res.tag = .AST_REAL)
    (h : fold_binop env .ok (.binop op pos type o a) = .ok res) :
    fold_binop env .ok (.binop op pos type o b) = .ok res := by
  have hne : ∀ x y, Expr.binop op pos type x y ≠ res := by
    intro x y hxy
    subst hxy
    cases op <;> simp [Expr.tag, Binop.tag] at hres
  simp only [fold_binop, bind, Except.bind, pure, Except.pure, hca, hta, hva, Bool.and_true,
    and_true] at h
  simp only [fold_binop, bind, Except.bind, pure, Except.pure, hcb, htb, hvb, Bool.and_true,
    and_true]
  split_ifs at h ⊢ with h1 h2 h3
  · exact absurd (Except.ok.inj h) (hne _ _)
  · cases hv : get_value_long env o with
    | error F => simp only [hv] at h; cases h
    | ok w =>
      simp only [hv] at h ⊢
      cases op <;> first
        | exact h
        | exact absurd (Except.ok.inj h) (hne _ _)
  · cases h3.2
  · exact absurd (Except.ok.inj h) (hne _ _)

/-- Two integer-typed constant operands with the same value are
interchangeable on the left of a binary relation, as far as a literal result
goes. -/
theorem fold_binrel_swap_left (env : Env) (rel : Binrel) (pos : position_information)
    (type : Ty) (a b o res : Expr) (v : Int)
    (hca : is_const env a = true) (hta : a.type = .integer_type)
    (hva : get_value_long env a = .ok v)
    (hcb : is_const env b = true) (htb : b.type = .integer_type)
    (hvb : get_value_long env b = .ok v)
    (hres : res.tag = .AST_INTEGER ∨ res.tag = .AST_REAL)
    (h : fold_binrel env .ok (.binrel rel pos type a o) = .ok res) :
    fold_binrel env .ok (.binrel rel pos type b o) = .ok res := by
  have hne : ∀ x y, Expr.binrel rel pos type x y ≠ res := by
    intro x y hxy
    subst hxy
    cases rel <;> simp [Expr.tag, Binrel.tag] at hres
  simp only [fold_binrel, bind, Except.bind, pure, Except.pure, hca, hta, hva, Bool.true_and,
    true_and] at h
  simp only [fold_binrel, bind, Except.bind, pure, Except.pure, hcb, htb, hvb, Bool.true_and,
    true_and]
  split_ifs at h ⊢ with h1 h2
  · exact absurd (Except.ok.inj h) (hne _ _)
  · cases hv : get_value_long env o with
    | error F => simp only [hv] at h; cases h
    | ok w =>
      simp only [hv] at h ⊢
      cases rel <;> exact h
  · exact absurd (Except.ok.inj h) (hne _ _)

/-- Two integer-typed constant operands with the same value are
interchangeable on the right of a binary relation, as far as a literal result
goes. -/
theorem fold_binrel_swap_right (env : Env) (rel : Binrel) (pos : position_information)
    (type : Ty) (a b o res : Expr) (v : Int)
    (hca : is_const env a = true) (hta : a.type = .integer_type)
    (hva : get_value_long env a = .ok v)
    (hcb : is_const env b = true) (htb : b.type = .integer_type)
    (hvb : get_value_long env b = .ok v)
    (hres : res.tag = .AST_INTEGER ∨ res.tag = .AST_REAL)
    (h : fold_binrel env .ok (.binrel rel pos type o a) = .ok res) :
    fold_binrel env .ok (.binrel rel pos type o b) = .ok res := by
  have hne : ∀ x y, Expr.binrel rel pos type x y ≠ res := by
    intro x y hxy
    subst hxy
    cases rel <;> simp [Expr.tag, Binrel.tag] at hres
  simp only [fold_binrel, bind, Except.bind, pure, Except.pure, hca, hta, hva, Bool.and_true,
    and_true] at h
  simp only [fold_binrel, bind, Except.bind, pure, Except.pure, hcb, htb, hvb, Bool.and_true,
    and_true]
  split_ifs at h ⊢ with h1 h2
  · exact absurd (Except.ok.inj h) (hne _ _)
  · cases hv : get_value_long env o with
    | error F => simp only [hv] at h; cases h
    | ok w =>
      simp only [hv] at h ⊢
      cases rel <;> exact h
  · exact absurd (Except.ok.inj h) (hne _ _)

/-- Claim C8. Constant identifiers fold like literals: let `s` be bound in the
symbol table to a CONST symbol with stored integer value `v`, and take a binary
operation or relation node with the integer-typed identifier `s` as its left
or right operand.  Whenever the node with the identifier replaced by the
integer literal `v` folds to a literal `res` (the node is foldable),
`fold_constants` returns that same literal for the node with the identifier,
and conversely. -/
theorem C8_constant_identifiers_fold_like_literals (env : Env) (s : Nat) (v : Int)
    (p q pos : position_information) (type : Ty) (other res : Expr)
    (hs : env.sym_tab.get_symbol_tag s = .SYM_CONST)
    (hv : env.sym_tab.const_ival s = v)
    (hres : res.tag = .AST_INTEGER ∨ res.tag = .AST_REAL) :
    (∀ op,
      (fold_constants env (.binop op pos type (.ast_id p .integer_type s) other) = .ok res ↔
        fold_constants env (.binop op pos type (.ast_integer q v) other) = .ok res) ∧
      (fold_constants env (.binop op pos type other (.ast_id p .integer_type s)) = .ok res ↔
        fold_constants env (.binop op pos type other (.ast_integer q v)) = .ok res)) ∧
    (∀ rel,
      (fold_constants env (.binrel rel pos type (.ast_id p .integer_type s) other) = .ok res ↔
        fold_constants env (.binrel rel pos type (.ast_integer q v) other) = .ok res) ∧
      (fold_constants env (.binrel rel pos type other (.ast_id p .integer_type s)) = .ok res ↔
        fold_constants env (.binrel rel pos type other (.ast_integer q v)) = .ok res)) := by
  have ci : is_const env (.ast_id p .integer_type s) = true := by
    simp only [is_const, hs, decide_True]
  have vi : get_value_long env (.ast_id p .integer_type s) = .ok v := by
    simp only [get_value_long, hv]
  have cl : is_const env (.ast_integer q v) = true := rfl
  have vl : get_value_long env (.ast_integer q v) = .ok v := rfl
  refine ⟨fun op => ⟨?_, ?_⟩, fun rel => ⟨?_, ?_⟩⟩
  · simp only [fold_constants_binop, fold_constants_id, fold_constants_integer, bind_eq_ok,
      Except.ok.injEq, exists_eq_left']
    constructor
    · rintro ⟨o1, ho, h⟩
      exact ⟨o1, ho, fold_binop_swap_left env op pos type _ _ o1 res v ci rfl vi cl rfl vl hres h⟩
    · rintro ⟨o1, ho, h⟩
      exact ⟨o1, ho, fold_binop_swap_left env op pos type _ _ o1 res v cl rfl vl ci rfl vi hres h⟩
  · simp only [fold_constants_binop, fold_constants_id, fold_constants_integer, bind_eq_ok,
      Except.ok.injEq, exists_eq_left']
    constructor
    · rintro ⟨o1, ho, h⟩
      exact ⟨o1, ho, fold_binop_swap_right env op pos type _ _ o1 res v ci rfl vi cl rfl vl hres h⟩
    · rintro ⟨o1, ho, h⟩
      exact ⟨o1, ho, fold_binop_swap_right env op pos type _ _ o1 res v cl rfl vl ci rfl vi hres h⟩
  · simp only [fold_constants_binrel, fold_constants_id, fold_constants_integer, bind_eq_ok,
      Except.ok.injEq, exists_eq_left']
    constructor
    · rintro ⟨o1, ho, h⟩
      exact ⟨o1, ho,
        fold_binrel_swap_left env rel pos type _ _ o1 res v ci rfl vi cl rfl vl hres h⟩
    · rintro ⟨o1, ho, h⟩
      exact ⟨o1, ho,
        fold_binrel_swap_left env rel pos type _ _ o1 res v cl rfl vl ci rfl vi hres h⟩
  · simp only [fold_constants_binrel, fold_constants_id, fold_constants_integer, bind_eq_ok,
      Except.ok.injEq, exists_eq_left']
    constructor
    · rintro ⟨o1, ho, h⟩
      exact ⟨o1, ho,
        fold_binrel_swap_right env rel pos type _ _ o1 res v ci rfl vi cl rfl vl hres h⟩
    · rintro ⟨o1, ho, h⟩
      exact ⟨o1, ho,
        fold_binrel_swap_right env rel pos type _ _ o1 res v cl rfl vl ci rfl vi hres h⟩

/-- Witness for C8: `4 + FOO` with `FOO = CONST 2` folds to the single integer
literal 6 at the position of the `+`, as `4 + 2` does. -/
theorem C8_witness :
    fold_constants env0 (.binop .add (at_ 1 3) .integer_type (lit 1 4) (lit 5 2)) =
        .ok (.ast_integer (at_ 1 3) 6) ∧
      fold_constants env0 (.binop .add (at_ 1 3) .integer_type (lit 1 4) FOO) =
        .ok (.ast_integer (at_ 1 3) 6) :=
  ⟨by decide,
    (((C8_constant_identifiers_fold_like_literals env0 0 2 (at_ 1 5) (at_ 1 5) (at_ 1 3)
      .integer_type (lit 1 4) (.ast_integer (at_ 1 3) 6) rfl rfl (Or.inl rfl)).1 .add).2).2
      (by decide)⟩

/-- A binary operation one of whose folded operands is not constant-classified
is returned with its operands folded. -/
theorem fold_constants_binop_blocked (env : Env) (op : Binop) (pos : position_information)
    (type : Ty) (l r l1 r1 : Expr)
    (hl : fold_constants env l = .ok l1) (hr : fold_constants env r = .ok r1)
    (h : (is_const env l1 && is_const env r1) = false) :
    fold_constants env (.binop op pos type l r) = .ok (.binop op pos type l1 r1) := by
  rw [fold_constants_binop, hl, hr]
  exact fold_binop_blocked env op pos type l1 r1 h

/-- A binary relation one of whose folded operands is not constant-classified
is returned with its operands folded. -/
theorem fold_constants_binrel_blocked (env : Env) (rel : Binrel) (pos : position_information)
    (type : Ty) (l r l1 r1 : Expr)
    (hl : fold_constants env l = .ok l1) (hr : fold_constants env r = .ok r1)
    (h : (is_const env l1 && is_const env r1) = false) :
    fold_constants env (.binrel rel pos type l r) = .ok (.binrel rel pos type l1 r1) := by
  rw [fold_constants_binrel, hl, hr]
  exact fold_binrel_blocked env rel pos type l1 r1 h

/-- Claim C9. A non-constant operand blocks folding of its parent only: for
every binary operation or relation node one of whose operands is an identifier
whose symbol kind is not CONST, `fold_constants` returns the node itself, with
the same operator and with that identifier still in place, while the other
operand field holds the result `o1` of `fold_constants` on the original other
operand. -/
theorem C9_non_constant_operand_blocks_parent_only (env : Env) (s : Nat)
    (p pos : position_information) (idtype type : Ty) (other o1 : Expr)
    (hs : env.sym_tab.get_symbol_tag s ≠ .SYM_CONST)
    (ho : fold_constants env other = .ok o1) :
    (∀ op,
      fold_constants env (.binop op pos type (.ast_id p idtype s) other) =
        .ok (.binop op pos type (.ast_id p idtype s) o1) ∧
      fold_constants env (.binop op pos type other (.ast_id p idtype s)) =
        .ok (.binop op pos type o1 (.ast_id p idtype s))) ∧
    (∀ rel,
      fold_constants env (.binrel rel pos type (.ast_id p idtype s) other) =
        .ok (.binrel rel pos type (.ast_id p idtype s) o1) ∧
      fold_constants env (.binrel rel pos type other (.ast_id p idtype s)) =
        .ok (.binrel rel pos type o1 (.ast_id p idtype s))) := by
  have ci : is_const env (.ast_id p idtype s) = false := by
    simp only [is_const, decide_eq_false_iff_not]
    exact hs
  have b1 : (is_const env (.ast_id p idtype s) && is_const env o1) = false := by
    rw [ci]; rfl
  have b2 : (is_const env o1 && is_const env (.ast_id p idtype s)) = false := by
    rw [ci]; exact Bool.and_false _
  exact ⟨fun op =>
      ⟨fold_constants_binop_blocked env op pos type _ _ _ _ (fold_constants_id env p idtype s) ho b1,
        fold_constants_binop_blocked env op pos type _ _ _ _ ho (fold_constants_id env p idtype s) b2⟩,
    fun rel =>
      ⟨fold_constants_binrel_blocked env rel pos type _ _ _ _ (fold_constants_id env p idtype s) ho
          b1,
        fold_constants_binrel_blocked env rel pos type _ _ _ _ ho (fold_constants_id env p idtype s)
          b2⟩⟩

/-- Witness for C9: `x < 5` is returned unchanged and `x + (2 + 3)` becomes
`x + 5`. -/
theorem C9_witness :
    fold_constants env0 (.binrel .lessthan (at_ 1 3) .integer_type var_x (lit 5 5)) =
        .ok (.binrel .lessthan (at_ 1 3) .integer_type var_x (lit 5 5)) ∧
      fold_constants env0 (.binop .add (at_ 1 3) .integer_type var_x
        (.binop .add (at_ 1 8) .integer_type (lit 6 2) (lit 10 3))) =
        .ok (.binop .add (at_ 1 3) .integer_type var_x (.ast_integer (at_ 1 8) 5)) :=
  ⟨((C9_non_constant_operand_blocks_parent_only env0 1 (at_ 1 1) (at_ 1 3) .integer_type
      .integer_type (lit 5 5) (lit 5 5) (by decide) (by decide)).2 .lessthan).1,
    ((C9_non_constant_operand_blocks_parent_only env0 1 (at_ 1 1) (at_ 1 3) .integer_type
      .integer_type (.binop .add (at_ 1 8) .integer_type (lit 6 2) (lit 10 3))
      (.ast_integer (at_ 1 8) 5) (by decide) (by decide)).1 .add).1⟩

/-- A unary minus node folds to itself around its folded operand. -/
theorem fold_constants_uminus (env : Env) (pos : position_information) (type : Ty)
    (e : Expr) :
    fold_constants env (.ast_uminus pos type e) =
      (fold_constants env e >>= fun e1 => .ok (.ast_uminus pos type e1)) := by
  rw [fold_constants_eq,
    fold_constants_body_other env (fold_constants env) (.ast_uminus pos type e) rfl rfl]
  rfl

/-- A logical-not node folds to itself around its folded operand. -/
theorem fold_constants_not (env : Env) (pos : position_information) (type : Ty)
    (e : Expr) :
    fold_constants env (.ast_not pos type e) =
      (fold_constants env e >>= fun e1 => .ok (.ast_not pos type e1)) := by
  rw [fold_constants_eq,
    fold_constants_body_other env (fold_constants env) (.ast_not pos type e) rfl rfl]
  rfl

/-- A cast node folds to itself around its folded operand. -/
theorem fold_constants_cast (env : Env) (pos : position_information) (type : Ty)
    (e : Expr) :
    fold_constants env (.ast_cast pos type e) =
      (fold_constants env e >>= fun e1 => .ok (.ast_cast pos type e1)) := by
  rw [fold_constants_eq,
    fold_constants_body_other env (fold_constants env) (.ast_cast pos type e) rfl rfl]
  rfl

/-- Claim C10. Cast and unary nodes survive: for every cast, unary-minus or
logical-not node `n` whose inner expression folds to `e1`, `fold_constants n`
returns `n` itself (same tag, position and type, never a literal) with the
inner expression replaced by `e1`; consequently a binary operation or relation
node having such a node as an operand is never folded: it is returned with the
wrapper still in place, even when `e1` is a literal. -/
theorem C10_cast_and_unary_nodes_survive (env : Env) (pos : position_information) (type : Ty)
    (e e1 : Expr) (h : fold_constants env e = .ok e1) :
    (fold_constants env (.ast_uminus pos type e) = .ok (.ast_uminus pos type e1) ∧
      fold_constants env (.ast_not pos type e) = .ok (.ast_not pos type e1) ∧
      fold_constants env (.ast_cast pos type e) = .ok (.ast_cast pos type e1)) ∧
    ∀ n n1 : Expr,
      (n = .ast_uminus pos type e ∧ n1 = .ast_uminus pos type e1) ∨
        (n = .ast_not pos type e ∧ n1 = .ast_not pos type e1) ∨
        (n = .ast_cast pos type e ∧ n1 = .ast_cast pos type e1) →
      ∀ (bpos : position_information) (btype : Ty) (other o1 : Expr),
        fold_constants env other = .ok o1 →
        (∀ op,
          fold_constants env (.binop op bpos btype n other) = .ok (.binop op bpos btype n1 o1) ∧
          fold_constants env (.binop op bpos btype other n) = .ok (.binop op bpos btype o1 n1)) ∧
        (∀ rel,
          fold_constants env (.binrel rel bpos btype n other) =
            .ok (.binrel rel bpos btype n1 o1) ∧
          fold_constants env (.binrel rel bpos btype other n) =
            .ok (.binrel rel bpos btype o1 n1)) := by
  have h1 : fold_constants env (.ast_uminus pos type e) = .ok (.ast_uminus pos type e1) := by
    rw [fold_constants_uminus, h]; rfl
  have h2 : fold_constants env (.ast_not pos type e) = .ok (.ast_not pos type e1) := by
    rw [fold_constants_not, h]; rfl
  have h3 : fold_constants env (.ast_cast pos type e) = .ok (.ast_cast pos type e1) := by
    rw [fold_constants_cast, h]; rfl
  refine ⟨⟨h1, h2, h3⟩, ?_⟩
  intro n n1 hn bpos btype other o1 ho
  have hf : fold_constants env n = .ok n1 ∧ is_const env n1 = false := by
    rcases hn with ⟨rfl, rfl⟩ | ⟨rfl, rfl⟩ | ⟨rfl, rfl⟩
    · exact ⟨h1, rfl⟩
    · exact ⟨h2, rfl⟩
    · exact ⟨h3, rfl⟩
  obtain ⟨hfn, hcn⟩ := hf
  have b1 : (is_const env n1 && is_const env o1) = false := by rw [hcn]; rfl
  have b2 : (is_const env o1 && is_const env n1) = false := by rw [hcn]; exact Bool.and_false _
  exact ⟨fun op =>
      ⟨fold_constants_binop_blocked env op bpos btype _ _ _ _ hfn ho b1,
        fold_constants_binop_blocked env op bpos btype _ _ _ _ ho hfn b2⟩,
    fun rel =>
      ⟨fold_constants_binrel_blocked env rel bpos btype _ _ _ _ hfn ho b1,
        fold_constants_binrel_blocked env rel bpos btype _ _ _ _ ho hfn b2⟩⟩

/-- Witness for C10: `-(2 + 3)` folds to `-(5)`, still a unary minus, and
`1 + -(2 + 3)` is returned as `1 + -(5)`, not folded. -/
theorem C10_witness :
    fold_constants env0 (.ast_uminus (at_ 1 5) .integer_type
        (.binop .add (at_ 1 9) .integer_type (lit 7 2) (lit 11 3))) =
        .ok (.ast_uminus (at_ 1 5) .integer_type (.ast_integer (at_ 1 9) 5)) ∧
      fold_constants env0 (.binop .add (at_ 1 3) .integer_type (lit 1 1)
        (.ast_uminus (at_ 1 5) .integer_type
          (.binop .add (at_ 1 9) .integer_type (lit 7 2) (lit 11 3)))) =
        .ok (.binop .add (at_ 1 3) .integer_type (lit 1 1)
          (.ast_uminus (at_ 1 5) .integer_type (.ast_integer (at_ 1 9) 5))) :=
  have h := C10_cast_and_unary_nodes_survive env0 (at_ 1 5) .integer_type
    (.binop .add (at_ 1 9) .integer_type (lit 7 2) (lit 11 3)) (.ast_integer (at_ 1 9) 5)
    (by decide)
  ⟨h.1.1, ((h.2 _ _ (Or.inl ⟨rfl, rfl⟩) (at_ 1 3) .integer_type (lit 1 1) (lit 1 1)
    (by decide)).1 .add).2⟩

/-- An indexed access folds to itself around its folded index. -/
theorem fold_constants_indexed (env : Env) (pos : position_information) (type : Ty)
    (id : id_ref) (index : Expr) :
    fold_constants env (.ast_indexed pos type id index) =
      (fold_constants env index >>= fun i1 => .ok (.ast_indexed pos type id i1)) := by
  rw [fold_constants_eq,
    fold_constants_body_other env (fold_constants env) (.ast_indexed pos type id index) rfl rfl]
  rfl

/-- Claim C11. For every indexed-access node, `optimize` replaces the index
field by `fold_constants` of the original index expression and leaves the base
reference and every other field of the node (position, type) as they were; so
does `fold_constants` on the node. -/
theorem C11_indexed_access_folds_index_only (env : Env) (pos : position_information)
    (type : Ty) (id : id_ref) (index i1 : Expr) (h : fold_constants env index = .ok i1) :
    Expr.optimize (fold_constants env) (.ast_indexed pos type id index) =
        .ok (.ast_indexed pos type id i1) ∧
      fold_constants env (.ast_indexed pos type id index) =
        .ok (.ast_indexed pos type id i1) := by
  constructor
  · simp only [Expr.optimize, h, bind, Except.bind, pure, Except.pure]
  · rw [fold_constants_indexed, h]
    rfl

/-- Witness for C11: in `a[1 + 2]` the index becomes `3` and the base `a`
stays. -/
theorem C11_witness :
    Expr.optimize (fold_constants env0)
        (.ast_indexed (at_ 1 1) .integer_type ⟨at_ 1 1, .integer_type, 2⟩ one_plus_two) =
        .ok (.ast_indexed (at_ 1 1) .integer_type ⟨at_ 1 1, .integer_type, 2⟩
          (.ast_integer (at_ 1 3) 3)) :=
  (C11_indexed_access_folds_index_only env0 (at_ 1 1) .integer_type
    ⟨at_ 1 1, .integer_type, 2⟩ one_plus_two (.ast_integer (at_ 1 3) 3) (by decide)).1

/-- A literal returned by the decision of `fold_binop` sits at the node's
position and has the type class of the two operands. -/
theorem fold_binop_literal (env : Env) (op : Binop) (pos : position_information) (type : Ty)
    (l r res : Expr) (hlit : res.tag = .AST_INTEGER ∨ res.tag = .AST_REAL)
    (h : fold_binop env .ok (.binop op pos type l r) = .ok res) :
    res.pos = pos ∧
      ((l.type = .integer_type ∧ r.type = .integer_type ∧ res.tag = .AST_INTEGER) ∨
        (l.type = .real_type ∧ r.type = .real_type ∧ res.tag = .AST_REAL)) := by
  have hne : ∀ x y, Expr.binop op pos type x y ≠ res := by
    intro x y hxy
    subst hxy
    cases op <;> simp [Expr.tag, Binop.tag] at hlit
  simp only [fold_binop, bind, Except.bind, pure, Except.pure] at h
  split_ifs at h with hc ht1 ht2
  · exact absurd (Except.ok.inj h) (hne _ _)
  · cases hl : get_value_long env l <;> cases hr : get_value_long env r <;>
      simp only [hl, hr] at h <;> try cases h
    cases op <;> simp only [long_div, long_mod] at h <;> try split_ifs at h
    all_goals first
      | exact absurd (Except.ok.inj h) (hne _ _)
      | (cases h; exact ⟨rfl, Or.inl ⟨ht1.1, ht1.2, rfl⟩⟩)
  · cases hl : get_value_double env l <;> cases hr : get_value_double env r <;>
      simp only [hl, hr] at h <;> try cases h
    cases op
    all_goals first
      | exact absurd (Except.ok.inj h) (hne _ _)
      | (cases h; exact ⟨rfl, Or.inr ⟨ht2.1, ht2.2, rfl⟩⟩)
  · exact absurd (Except.ok.inj h) (hne _ _)

/-- A literal returned by the decision of `fold_binrel` is an integer literal
at the node's position, and the two operands are integer-typed. -/
theorem fold_binrel_literal (env : Env) (rel : Binrel) (pos : position_information)
    (type : Ty) (l r res : Expr) (hlit : res.tag = .AST_INTEGER ∨ res.tag = .AST_REAL)
    (h : fold_binrel env .ok (.binrel rel pos type l r) = .ok res) :
    res.pos = pos ∧ l.type = .integer_type ∧ r.type = .integer_type ∧
      res.tag = .AST_INTEGER := by
  have hne : ∀ x y, Expr.binrel rel pos type x y ≠ res := by
    intro x y hxy
    subst hxy
    cases rel <;> simp [Expr.tag, Binrel.tag] at hlit
  simp only [fold_binrel, bind, Except.bind, pure, Except.pure] at h
  split_ifs at h with hc ht1
  · exact absurd (Except.ok.inj h) (hne _ _)
  · cases hl : get_value_long env l <;> cases hr : get_value_long env r <;>
      simp only [hl, hr] at h <;> try cases h
    cases rel
    all_goals
      cases h
      exact ⟨rfl, ht1.1, ht1.2, rfl⟩
  · exact absurd (Except.ok.inj h) (hne _ _)

/-- Claim C12. Whenever `fold_binop` or `fold_binrel` replaces a binary node
by a new literal `res`, the literal's source position is the position of the
replaced operator node, and the literal is an integer literal when the (folded)
operands were integer-typed and a real literal when they were real-typed; no
other case produces a literal. -/
theorem C12_literal_position_and_type (env : Env) (pos : position_information) (type : Ty)
    (l r l1 r1 res : Expr)
    (hl : fold_constants env l = .ok l1) (hr : fold_constants env r = .ok r1)
    (hlit : res.tag = .AST_INTEGER ∨ res.tag = .AST_REAL) :
    (∀ op, fold_binop env (fold_constants env) (.binop op pos type l r) = .ok res →
      res.pos = pos ∧
        ((l1.type = .integer_type ∧ r1.type = .integer_type ∧ res.tag = .AST_INTEGER) ∨
          (l1.type = .real_type ∧ r1.type = .real_type ∧ res.tag = .AST_REAL))) ∧
    (∀ rel, fold_binrel env (fold_constants env) (.binrel rel pos type l r) = .ok res →
      res.pos = pos ∧ l1.type = .integer_type ∧ r1.type = .integer_type ∧
        res.tag = .AST_INTEGER) := by
  constructor
  · intro op h
    rw [fold_binop_eq, hl, hr] at h
    exact fold_binop_literal env op pos type l1 r1 res hlit h
  · intro rel h
    rw [fold_binrel_eq, hl, hr] at h
    exact fold_binrel_literal env rel pos type l1 r1 res hlit h

/-- Witness for C12: `4 + FOO` is replaced by an integer literal at the
position of the `+` (column 3), not at that of `4` (column 1) or `FOO`
(column 5). -/
theorem C12_witness :
    fold_binop env0 (fold_constants env0)
        (.binop .add (at_ 1 3) .integer_type (lit 1 4) FOO) = .ok (.ast_integer (at_ 1 3) 6) ∧
      (Expr.ast_integer (at_ 1 3) 6).pos = at_ 1 3 ∧
      (Expr.ast_integer (at_ 1 3) 6).tag = .AST_INTEGER :=
  have h := (C12_literal_position_and_type env0 (at_ 1 3) .integer_type (lit 1 4) FOO
    (lit 1 4) FOO (.ast_integer (at_ 1 3) 6) (by decide) (by decide) (Or.inl rfl)).1 .add
    (by decide)
  ⟨by decide, h.1, by decide⟩

/-- Claim C13. Idempotence: for every expression `e` (and a fixed symbol
table) on which `fold_constants` completes with `e1`, `fold_constants e1`
completes with `e1` again: folding the folded expression returns it
structurally unchanged. -/
theorem C13_fold_constants_idempotent (env : Env) (e e1 : Expr)
    (h : fold_constants env e = .ok e1) : fold_constants env e1 = .ok e1 :=
  fold_constants_idem env e e1 h

/-- Witness for C13: `x + FOO * 3` folds to `x + 6`, and `x + 6` folds to
itself. -/
theorem C13_witness :
    fold_constants env0 (.binop .add (at_ 1 3) .integer_type var_x
        (.binop .mult (at_ 1 9) .integer_type FOO (lit 11 3))) =
        .ok (.binop .add (at_ 1 3) .integer_type var_x (.ast_integer (at_ 1 9) 6)) ∧
      fold_constants env0 (.binop .add (at_ 1 3) .integer_type var_x
        (.ast_integer (at_ 1 9) 6)) =
        .ok (.binop .add (at_ 1 3) .integer_type var_x (.ast_integer (at_ 1 9) 6)) :=
  ⟨by decide,
    C13_fold_constants_idempotent env0
      (.binop .add (at_ 1 3) .integer_type var_x
        (.binop .mult (at_ 1 9) .integer_type FOO (lit 11 3)))
      (.binop .add (at_ 1 3) .integer_type var_x (.ast_integer (at_ 1 9) 6)) (by decide)⟩

/-- When the decision of `fold_binop` returns the node, the node is not one
the pass folds. -/
theorem fold_binop_node_not_foldable (env : Env) (op : Binop) (pos : position_information)
    (type : Ty) (l r : Expr)
    (h : fold_binop env .ok (.binop op pos type l r) = .ok (.binop op pos type l r)) :
    foldable_binop env op l r = false := by
  by_contra hf
  simp only [Bool.not_eq_false, foldable_binop, Bool.and_eq_true, Bool.or_eq_true,
    decide_eq_true_eq] at hf
  obtain ⟨⟨hcl, hcr⟩, hty⟩ := hf
  obtain ⟨vl, hvl⟩ := get_value_long_of_is_const env l hcl
  obtain ⟨vr, hvr⟩ := get_value_long_of_is_const env r hcr
  obtain ⟨dl, hdl⟩ := get_value_double_of_is_const env l hcl
  obtain ⟨dr, hdr⟩ := get_value_double_of_is_const env r hcr
  rcases hty with ⟨h1, h2, hop⟩ | ⟨h1, h2, hop1, hop2⟩
  · simp only [fold_binop, bind, Except.bind, pure, Except.pure, hcl, hcr, h1, h2, hvl,
      hvr] at h
    cases op <;> simp [long_div, long_mod] at h hop
    all_goals
      split_ifs at h
      cases h
  · simp only [fold_binop, bind, Except.bind, pure, Except.pure, hcl, hcr, h1, h2, hdl,
      hdr] at h
    cases op <;> simp at h hop1 hop2

/-- When the decision of `fold_binrel` returns the node, the node is not one
the pass folds. -/
theorem fold_binrel_node_not_foldable (env : Env) (rel : Binrel) (pos : position_information)
    (type : Ty) (l r : Expr)
    (h : fold_binrel env .ok (.binrel rel pos type l r) = .ok (.binrel rel pos type l r)) :
    foldable_binrel env l r = false := by
  by_contra hf
  simp only [Bool.not_eq_false, foldable_binrel, Bool.and_eq_true, decide_eq_true_eq] at hf
  obtain ⟨⟨hcl, hcr⟩, h1, h2⟩ := hf
  obtain ⟨vl, hvl⟩ := get_value_long_of_is_const env l hcl
  obtain ⟨vr, hvr⟩ := get_value_long_of_is_const env r hcr
  simp only [fold_binrel, bind, Except.bind, pure, Except.pure, hcl, hcr, h1, h2, hvl,
    hvr] at h
  cases rel <;> simp at h

/-- Folding a parameter list leaves no foldable node in it, when `fold` leaves
none in an expression. -/
theorem ExprList.optimize_list_no_foldable (env : Env) (fold : Expr → Except Fault Expr) :
    ∀ l l1 : ExprList,
      (∀ x r : Expr, x.depth ≤ l.depth → fold x = .ok r → Expr.no_foldable env r = true) →
      ExprList.optimize fold l = .ok l1 → ExprList.no_foldable env l1 = true
  | .null, l1, _, h => by
    simp only [ExprList.optimize, pure, Except.pure, Except.ok.injEq] at h
    subst h
    rfl
  | .node pos p e, l1, hx, h => by
    simp only [ExprList.optimize, bind_eq_ok, pure, Except.pure, Except.ok.injEq] at h
    obtain ⟨p1, hp, e1, he, rfl⟩ := h
    have hp1 := ExprList.optimize_list_no_foldable env fold p p1
      (fun x r hd => hx x r (by simp only [ExprList.depth]; omega)) hp
    have he1 := hx e e1 (by simp only [ExprList.depth]; omega) he
    simp only [ExprList.no_foldable, hp1, he1, Bool.and_self]
  | .node_null pos p, l1, hx, h => by
    simp only [ExprList.optimize, bind_eq_ok, pure, Except.pure, Except.ok.injEq] at h
    obtain ⟨p1, hp, rfl⟩ := h
    have hp1 := ExprList.optimize_list_no_foldable env fold p p1
      (fun x r hd => hx x r (by simp only [ExprList.depth]; omega)) hp
    simp only [ExprList.no_foldable, hp1]

/-- A folded expression holds no node the pass folds, for expressions of depth
below `n`. -/
theorem fold_constants_no_foldable_below (env : Env) :
    ∀ (n : Nat) (e e1 : Expr), e.depth < n → fold_constants env e = .ok e1 →
      Expr.no_foldable env e1 = true := by
  intro n
  induction n with
  | zero => intro e e1 h; omega
  | succ n ih =>
    intro e e1 hd h
    cases e with
    | abstract_class k pos type =>
      rw [fold_constants_eq] at h
      cases k <;> cases h
    | ast_id pos type s => cases h; rfl
    | ast_integer pos v => cases h; rfl
    | ast_real pos v => cases h; rfl
    | binop op pos type l r =>
      rw [fold_constants_binop] at h
      simp only [bind_eq_ok] at h
      obtain ⟨l1, hl1, r1, hr1, hres⟩ := h
      simp only [Expr.depth] at hd
      have il := ih l l1 (by omega) hl1
      have ir := ih r r1 (by omega) hr1
      rcases fold_binop_shape env op pos type l1 r1 e1 hres with rfl | ⟨v, rfl⟩ | ⟨v, rfl⟩
      · simp only [Expr.no_foldable, il, ir, Bool.and_true, Bool.not_eq_true',
          fold_binop_node_not_foldable env op pos type l1 r1 hres]
      · rfl
      · rfl
    | binrel rel pos type l r =>
      rw [fold_constants_binrel] at h
      simp only [bind_eq_ok] at h
      obtain ⟨l1, hl1, r1, hr1, hres⟩ := h
      simp only [Expr.depth] at hd
      have il := ih l l1 (by omega) hl1
      have ir := ih r r1 (by omega) hr1
      rcases fold_binrel_shape env rel pos type l1 r1 e1 hres with rfl | ⟨v, rfl⟩
      · simp only [Expr.no_foldable, il, ir, Bool.and_true, Bool.not_eq_true',
          fold_binrel_node_not_foldable env rel pos type l1 r1 hres]
      · rfl
    | ast_functioncall pos type id ps =>
      rw [fold_constants_eq, fold_constants_body_other env (fold_constants env)
        (.ast_functioncall pos type id ps) rfl rfl] at h
      simp only [Expr.optimize, bind_eq_ok, pure, Except.pure, Except.ok.injEq] at h
      obtain ⟨ps1, hps, rfl⟩ := h
      simp only [Expr.depth] at hd
      simp only [Expr.no_foldable]
      exact ExprList.optimize_list_no_foldable env (fold_constants env) ps ps1
        (fun x r hx hr => ih x r (by omega) hr) hps
    | ast_indexed pos type id index =>
      rw [fold_constants_indexed] at h
      simp only [bind_eq_ok, Except.ok.injEq] at h
      obtain ⟨i1, hi, rfl⟩ := h
      simp only [Expr.depth] at hd
      simp only [Expr.no_foldable]
      exact ih index i1 (by omega) hi
    | ast_uminus pos type x =>
      rw [fold_constants_uminus] at h
      simp only [bind_eq_ok, Except.ok.injEq] at h
      obtain ⟨i1, hi, rfl⟩ := h
      simp only [Expr.depth] at hd
      simp only [Expr.no_foldable]
      exact ih x i1 (by omega) hi
    | ast_not pos type x =>
      rw [fold_constants_not] at h
      simp only [bind_eq_ok, Except.ok.injEq] at h
      obtain ⟨i1, hi, rfl⟩ := h
      simp only [Expr.depth] at hd
      simp only [Expr.no_foldable]
      exact ih x i1 (by omega) hi
    | ast_cast pos type x =>
      rw [fold_constants_cast] at h
      simp only [bind_eq_ok, Except.ok.injEq] at h
      obtain ⟨i1, hi, rfl⟩ := h
      simp only [Expr.depth] at hd
      simp only [Expr.no_foldable]
      exact ih x i1 (by omega) hi

/-- A folded expression holds no node the pass folds. -/
theorem fold_constants_no_foldable (env : Env) (e e1 : Expr)
    (h : fold_constants env e = .ok e1) : Expr.no_foldable env e1 = true :=
  fold_constants_no_foldable_below env (e.depth + 1) e e1 (Nat.lt_succ_self _) h

/-- A folded parameter list holds no node the pass folds. -/
theorem ExprList.optimize_no_foldable (env : Env) (l l1 : ExprList)
    (h : ExprList.optimize (fold_constants env) l = .ok l1) :
    ExprList.no_foldable env l1 = true :=
  ExprList.optimize_list_no_foldable env (fold_constants env) l l1
    (fun x r _ hr => fold_constants_no_foldable env x r hr) h

mutual
/-- An optimized statement holds no node the pass folds outside assignment
targets. -/
theorem stmt_optimize_no_foldable (env : Env) :
    ∀ s s1 : Stmt, Stmt.optimize env s = .ok s1 → Stmt.no_foldable env false s1 = true
  | .ast_statement _, s1, h => by cases h
  | .ast_procedurecall pos id ps, s1, h => by
    simp only [Stmt.optimize, bind_eq_ok, pure, Except.pure, Except.ok.injEq] at h
    obtain ⟨ps1, hps, rfl⟩ := h
    simp only [Stmt.no_foldable]
    exact ExprList.optimize_no_foldable env ps ps1 hps
  | .ast_assign pos lhs rhs, s1, h => by
    simp only [Stmt.optimize, bind_eq_ok, pure, Except.pure, Except.ok.injEq] at h
    obtain ⟨r1, hr, rfl⟩ := h
    simp only [Stmt.no_foldable, fold_constants_no_foldable env rhs r1 hr, Bool.not_false,
      Bool.true_or, Bool.and_self]
  | .ast_while pos c body, s1, h => by
    simp only [Stmt.optimize, bind_eq_ok, pure, Except.pure, Except.ok.injEq] at h
    obtain ⟨c1, hc, b1, hb, rfl⟩ := h
    simp only [Stmt.no_foldable, fold_constants_no_foldable env c c1 hc,
      stmt_list_optimize_no_foldable env body b1 hb, Bool.and_self]
  | .ast_if pos c body el eb, s1, h => by
    simp only [Stmt.optimize, bind_eq_ok, pure, Except.pure, Except.ok.injEq] at h
    obtain ⟨c1, hc, b1, hb, el1, hel, eb1, heb, rfl⟩ := h
    have h1 : ElsifList.no_foldable env false el1 = true := by
      cases el with
      | null => cases hel; rfl
      | node p pr le => exact elsif_list_optimize_no_foldable env _ el1 hel
      | node_null p pr => exact elsif_list_optimize_no_foldable env _ el1 hel
    have h2 : StmtList.no_foldable env false eb1 = true := by
      cases eb with
      | null => cases heb; rfl
      | node p pr le => exact stmt_list_optimize_no_foldable env _ eb1 heb
      | node_null p pr => exact stmt_list_optimize_no_foldable env _ eb1 heb
    simp only [Stmt.no_foldable, fold_constants_no_foldable env c c1 hc,
      stmt_list_optimize_no_foldable env body b1 hb, h1, h2, Bool.and_self]
  | .ast_return pos none, s1, h => by
    simp [Stmt.optimize, fold_constants_ptr, bind, Except.bind] at h
  | .ast_return pos (some v), s1, h => by
    simp only [Stmt.optimize, fold_constants_ptr, bind_eq_ok, pure, Except.pure,
      Except.ok.injEq] at h
    obtain ⟨w, ⟨v1, hv, rfl⟩, rfl⟩ := h
    simp only [Stmt.no_foldable]
    exact fold_constants_no_foldable env v v1 hv
/-- An optimized statement list holds no node the pass folds outside
assignment targets. -/
theorem stmt_list_optimize_no_foldable (env : Env) :
    ∀ l l1 : StmtList, StmtList.optimize env l = .ok l1 →
      StmtList.no_foldable env false l1 = true
  | .null, l1, h => by cases h
  | .node pos p s, l1, h => by
    simp only [StmtList.optimize, bind_eq_ok, pure, Except.pure, Except.ok.injEq] at h
    obtain ⟨p1, hp, s1, hs, rfl⟩ := h
    have h1 : StmtList.no_foldable env false p1 = true := by
      cases p with
      | null => cases hp; rfl
      | node q pr le => exact stmt_list_optimize_no_foldable env _ p1 hp
      | node_null q pr => exact stmt_list_optimize_no_foldable env _ p1 hp
    simp only [StmtList.no_foldable, h1, stmt_optimize_no_foldable env s s1 hs, Bool.and_self]
  | .node_null pos p, l1, h => by
    simp only [StmtList.optimize, bind_eq_ok, pure, Except.pure, Except.ok.injEq] at h
    obtain ⟨p1, hp, rfl⟩ := h
    have h1 : StmtList.no_foldable env false p1 = true := by
      cases p with
      | null => cases hp; rfl
      | node q pr le => exact stmt_list_optimize_no_foldable env _ p1 hp
      | node_null q pr => exact stmt_list_optimize_no_foldable env _ p1 hp
    simp only [StmtList.no_foldable, h1]
/-- An optimized elsif list holds no node the pass folds outside assignment
targets. -/
theorem elsif_list_optimize_no_foldable (env : Env) :
    ∀ l l1 : ElsifList, ElsifList.optimize env l = .ok l1 →
      ElsifList.no_foldable env false l1 = true
  | .null, l1, h => by cases h
  | .node pos p s, l1, h => by
    simp only [ElsifList.optimize, bind_eq_ok, pure, Except.pure, Except.ok.injEq] at h
    obtain ⟨p1, hp, s1, hs, rfl⟩ := h
    have h1 : ElsifList.no_foldable env false p1 = true := by
      cases p with
      | null => cases hp; rfl
      | node q pr le => exact elsif_list_optimize_no_foldable env _ p1 hp
      | node_null q pr => exact elsif_list_optimize_no_foldable env _ p1 hp
    simp only [ElsifList.no_foldable, h1, elsif_optimize_no_foldable env s s1 hs, Bool.and_self]
  | .node_null pos p, l1, h => by
    simp only [ElsifList.optimize, bind_eq_ok, pure, Except.pure, Except.ok.injEq] at h
    obtain ⟨p1, hp, rfl⟩ := h
    have h1 : ElsifList.no_foldable env false p1 = true := by
      cases p with
      | null => cases hp; rfl
      | node q pr le => exact elsif_list_optimize_no_foldable env _ p1 hp
      | node_null q pr => exact elsif_list_optimize_no_foldable env _ p1 hp
    simp only [ElsifList.no_foldable, h1]
/-- An optimized elsif clause holds no node the pass folds outside assignment
targets. -/
theorem elsif_optimize_no_foldable (env : Env) :
    ∀ s s1 : Elsif, Elsif.optimize env s = .ok s1 → Elsif.no_foldable env false s1 = true
  | .ast_elsif pos c body, s1, h => by
    simp only [Elsif.optimize, bind_eq_ok, pure, Except.pure, Except.ok.injEq] at h
    obtain ⟨c1, hc, b1, hb, rfl⟩ := h
    simp only [Elsif.no_foldable, fold_constants_no_foldable env c c1 hc,
      stmt_list_optimize_no_foldable env body b1 hb, Bool.and_self]
end

/-- Claim C14, as amended. Post-pass invariant: for every statement-list body
on which `do_optimize` completes, the resulting tree contains no binary
operation or binary relation node, anywhere outside assignment targets (so in
right-hand sides, call parameters, conditions, returned values and the index
expressions inside them), whose left and right operands are both
constant-classified by `is_const` and whose operator / operand-type
combination is one the pass folds. -/
theorem C14_post_pass_invariant (env : Env) (body body1 : StmtList)
    (h : do_optimize env body = .ok body1) : StmtList.no_foldable env false body1 = true := by
  cases body with
  | null => cases h; rfl
  | node pos p s => exact stmt_list_optimize_no_foldable env _ body1 h
  | node_null pos p => exact stmt_list_optimize_no_foldable env _ body1 h

/-- Witness for C14: the body `while x < 2 + 3 do a[1 + 2] := FOO + 1` becomes
`while x < 5 do a[1 + 2] := 3`, which holds no foldable node outside the
assignment target. -/
theorem C14_witness :
    do_optimize env0 (body_of (.ast_while (at_ 1 1)
        (.binrel .lessthan (at_ 1 9) .integer_type var_x
          (.binop .add (at_ 1 13) .integer_type (lit 11 2) (lit 15 3)))
        (body_of (.ast_assign (at_ 2 10)
          (.ast_indexed (at_ 2 1) .integer_type ⟨at_ 2 1, .integer_type, 2⟩ one_plus_two)
          (.binop .add (at_ 2 17) .integer_type FOO (lit 19 1)))))) =
      .ok (body_of (.ast_while (at_ 1 1)
        (.binrel .lessthan (at_ 1 9) .integer_type var_x (.ast_integer (at_ 1 13) 5))
        (body_of (.ast_assign (at_ 2 10)
          (.ast_indexed (at_ 2 1) .integer_type ⟨at_ 2 1, .integer_type, 2⟩ one_plus_two)
          (.ast_integer (at_ 2 17) 3))))) ∧
    StmtList.no_foldable env0 false (body_of (.ast_while (at_ 1 1)
        (.binrel .lessthan (at_ 1 9) .integer_type var_x (.ast_integer (at_ 1 13) 5))
        (body_of (.ast_assign (at_ 2 10)
          (.ast_indexed (at_ 2 1) .integer_type ⟨at_ 2 1, .integer_type, 2⟩ one_plus_two)
          (.ast_integer (at_ 2 17) 3))))) = true :=
  ⟨by decide,
    C14_post_pass_invariant env0
      (body_of (.ast_while (at_ 1 1)
        (.binrel .lessthan (at_ 1 9) .integer_type var_x
          (.binop .add (at_ 1 13) .integer_type (lit 11 2) (lit 15 3)))
        (body_of (.ast_assign (at_ 2 10)
          (.ast_indexed (at_ 2 1) .integer_type ⟨at_ 2 1, .integer_type, 2⟩ one_plus_two)
          (.binop .add (at_ 2 17) .integer_type FOO (lit 19 1))))))
      _ (by decide)⟩

/-- Counterexample to C14 as stated: `do_optimize` completes on the body
`a[1 + 2] := 0` and returns it unchanged, so the result still holds, inside
the assignment target, the binary operation `1 + 2` with two constant integer
operands, a combination the pass folds. -/
theorem C14_counterexample :
    do_optimize env0 (body_of assign_indexed) = .ok (body_of assign_indexed) ∧
      StmtList.no_foldable env0 true (body_of assign_indexed) = false ∧
      foldable_binop env0 .add (lit 1 1) (lit 5 2) = true :=
  ⟨by decide, by decide, by decide⟩

/-- Claim C15. Calling `optimize` (and hence `fold_constants`) on a node of an
abstract kind (base node, base statement, base expression, base lvalue, base
binary-operation, base binary-relation) or on a procedure-head or
function-head node always ends in the fatal error outcome and never returns a
node. -/
theorem C15_abstract_kinds_are_fatal (env : Env) (fold : Expr → Except Fault Expr)
    (k : abstract_kind) (pos : position_information) (type : Ty) :
    Expr.optimize fold (.abstract_class k pos type) = .error .fatal_abstract ∧
      fold_constants env (.abstract_class k pos type) = .error .fatal_abstract ∧
      Stmt.optimize env (.ast_statement pos) = .error .fatal_abstract ∧
      other_node.optimize (.ast_node pos) = .error .fatal_abstract ∧
      other_node.optimize (.ast_procedurehead pos) = .error .fatal_head ∧
      other_node.optimize (.ast_functionhead pos) = .error .fatal_head ∧
      (∀ n : Expr, Expr.optimize fold (.abstract_class k pos type) ≠ .ok n) ∧
      (∀ n : Expr, fold_constants env (.abstract_class k pos type) ≠ .ok n) ∧
      (∀ s : Stmt, Stmt.optimize env (.ast_statement pos) ≠ .ok s) ∧
      (∀ (o : other_node) (n : other_node), o.optimize ≠ .ok n) := by
  have h2 : fold_constants env (.abstract_class k pos type) = .error .fatal_abstract := by
    rw [fold_constants_eq]
    rfl
  refine ⟨rfl, h2, by simp [Stmt.optimize], rfl, rfl, rfl, ?_, ?_, ?_, ?_⟩
  · intro n h; cases h
  · intro n h; rw [h2] at h; cases h
  · intro s h; simp [Stmt.optimize] at h
  · intro o n h; cases o <;> cases h

/-- Dropping the counter from the instrumented `ast_expr_list::optimize`
gives `ast_expr_list::optimize`. -/
theorem ExprList.optimize_list_counted_fst (cf : Expr → Except Fault (Expr × Nat))
    (f : Expr → Except Fault Expr) (hcf : ∀ x, (cf x).map Prod.fst = f x) :
    ∀ l : ExprList, (ExprList.optimize_counted cf l).map Prod.fst = ExprList.optimize f l
  | .null => rfl
  | .node pos p e => by
    have hp := ExprList.optimize_list_counted_fst cf f hcf p
    simp only [ExprList.optimize_counted, ExprList.optimize, ← hp, ← hcf e]
    cases ExprList.optimize_counted cf p with
    | error F => rfl
    | ok a => cases cf e <;> rfl
  | .node_null pos p => by
    have hp := ExprList.optimize_list_counted_fst cf f hcf p
    simp only [ExprList.optimize_counted, ExprList.optimize, ← hp]
    cases ExprList.optimize_counted cf p <;> rfl

/-- Dropping the counter from the instrumented `optimize()` gives
`optimize()`. -/
theorem Expr.optimize_counted_fst (cf : Expr → Except Fault (Expr × Nat))
    (f : Expr → Except Fault Expr) (hcf : ∀ x, (cf x).map Prod.fst = f x) (e : Expr) :
    (Expr.optimize_counted cf e).map Prod.fst = Expr.optimize f e := by
  cases e with
  | abstract_class k pos type => rfl
  | ast_id pos type s => rfl
  | ast_integer pos v => rfl
  | ast_real pos v => rfl
  | ast_functioncall pos type id ps =>
    simp only [Expr.optimize_counted, Expr.optimize, ← ExprList.optimize_list_counted_fst cf f hcf ps]
    cases ExprList.optimize_counted cf ps <;> rfl
  | binop op pos type l r =>
    simp only [Expr.optimize_counted, Expr.optimize, ← hcf l, ← hcf r]
    cases cf l with
    | error F => rfl
    | ok a => cases cf r <;> rfl
  | binrel rel pos type l r =>
    simp only [Expr.optimize_counted, Expr.optimize, ← hcf l, ← hcf r]
    cases cf l with
    | error F => rfl
    | ok a => cases cf r <;> rfl
  | ast_indexed pos type id index =>
    simp only [Expr.optimize_counted, Expr.optimize, ← hcf index]
    cases cf index <;> rfl
  | ast_uminus pos type x =>
    simp only [Expr.optimize_counted, Expr.optimize, ← hcf x]
    cases cf x <;> rfl
  | ast_not pos type x =>
    simp only [Expr.optimize_counted, Expr.optimize, ← hcf x]
    cases cf x <;> rfl
  | ast_cast pos type x =>
    simp only [Expr.optimize_counted, Expr.optimize, ← hcf x]
    cases cf x <;> rfl

/-- Dropping the counter from the instrumented `fold_binop` gives
`fold_binop`. -/
theorem fold_binop_counted_fst (env : Env) (cf : Expr → Except Fault (Expr × Nat))
    (f : Expr → Except Fault Expr) (hcf : ∀ x, (cf x).map Prod.fst = f x) (node : Expr) :
    (fold_binop_counted env cf node).map Prod.fst = fold_binop env f node := by
  cases node with
  | binop op pos type l r =>
    rw [fold_binop_eq]
    simp only [fold_binop_counted, ← hcf l, ← hcf r]
    cases cf l with
    | error F => rfl
    | ok a =>
      cases cf r with
      | error F => rfl
      | ok b => cases h : fold_binop env .ok (.binop op pos type a.1 b.1) <;>
          simp [Except.map, bind, Except.bind, h, pure, Except.pure]
  | _ => rfl

/-- Dropping the counter from the instrumented `fold_binrel` gives
`fold_binrel`. -/
theorem fold_binrel_counted_fst (env : Env) (cf : Expr → Except Fault (Expr × Nat))
    (f : Expr → Except Fault Expr) (hcf : ∀ x, (cf x).map Prod.fst = f x) (node : Expr) :
    (fold_binrel_counted env cf node).map Prod.fst = fold_binrel env f node := by
  cases node with
  | binrel rel pos type l r =>
    rw [fold_binrel_eq]
    simp only [fold_binrel_counted, ← hcf l, ← hcf r]
    cases cf l with
    | error F => rfl
    | ok a =>
      cases cf r with
      | error F => rfl
      | ok b => cases h : fold_binrel env .ok (.binrel rel pos type a.1 b.1) <;>
          simp [Except.map, bind, Except.bind, h, pure, Except.pure]
  | _ => rfl

/-- Dropping the counter from the body of the instrumented `fold_constants`
gives the body of `fold_constants`. -/
theorem fold_constants_counted_body_fst (env : Env) (cf : Expr → Except Fault (Expr × Nat))
    (f : Expr → Except Fault Expr) (hcf : ∀ x, (cf x).map Prod.fst = f x) (node : Expr) :
    (fold_constants_counted_body env cf node).map Prod.fst = fold_constants_body env f node := by
  have ho := Expr.optimize_counted_fst cf f hcf node
  simp only [fold_constants_counted_body, fold_constants_body, ← ho]
  cases Expr.optimize_counted cf node with
  | error F => rfl
  | ok a =>
    obtain ⟨n1, c1⟩ := a
    have hb := fold_binop_counted_fst env cf f hcf n1
    have hr := fold_binrel_counted_fst env cf f hcf n1
    simp only [Except.map, bind, Except.bind, pure, Except.pure]
    split_ifs
    · rw [← hb]
      cases fold_binop_counted env cf n1 <;> rfl
    · rw [← hr]
      cases fold_binrel_counted env cf n1 <;> rfl
    · rfl

/-- Dropping the counter from the instrumented `fold_constants` gives
`fold_constants`, at every fuel. -/
theorem fold_constants_counted_fuel_fst (env : Env) :
    ∀ (n : Nat) (e : Expr),
      (fold_constants_counted_fuel env n e).map Prod.fst = fold_constants_fuel env n e := by
  intro n
  induction n with
  | zero => intro e; rfl
  | succ n ih =>
    intro e
    exact fold_constants_counted_body_fst env _ _ ih e

/-- The instrumented `fold_constants` returns the node `fold_constants`
returns: the counter changes nothing else. -/
theorem fold_constants_counted_fst (env : Env) (e : Expr) :
    (fold_constants_counted env e).map Prod.fst = fold_constants env e :=
  fold_constants_counted_fuel_fst env (e.depth + 1) e

/-- Claim C16, evaluated at `1 + 2`. The instrumented `fold_constants` makes 5
invocations on this tree of 3 expression nodes (the root once, each literal
twice: once from `ast_add::optimize` and once from `fold_binop`), while
returning the literal `3` as `fold_constants` does; so the number of
invocations is not the number of nodes. -/
theorem C16_single_visit_fails_on_one_plus_two :
    fold_constants_counted env0 one_plus_two = .ok (.ast_integer (at_ 1 3) 3, 5) ∧
      fold_constants env0 one_plus_two = .ok (.ast_integer (at_ 1 3) 3) ∧
      one_plus_two.nodes = 3 ∧
      ¬ ∀ (e res : Expr) (n : Nat),
        fold_constants_counted env0 e = .ok (res, n) → n = e.nodes := by
  refine ⟨by decide, by decide, by decide, ?_⟩
  intro h
  have h1 := h one_plus_two (.ast_integer (at_ 1 3) 3) 5 (by decide)
  revert h1
  decide

/-- Claim C17. Division by a constant zero is evaluated, not skipped: for
every integer-divide or mod node whose operands are both integer constants and
whose right operand has value 0, `fold_binop` does not return the node
unfolded (nor any node): it performs the division / remainder by zero, which
in the embedding is the division-by-zero fault. -/
theorem C17_division_by_constant_zero (env : Env) (pos : position_information) (type : Ty)
    (l r : Expr)
    (hcl : is_const env l = true) (htl : l.type = .integer_type)
    (hcr : is_const env r = true) (htr : r.type = .integer_type)
    (hvr : get_value_long env r = .ok 0) :
    fold_binop env (fold_constants env) (.binop .idiv pos type l r) = .error .div_by_zero ∧
      fold_binop env (fold_constants env) (.binop .mod pos type l r) = .error .div_by_zero ∧
      fold_binop env (fold_constants env) (.binop .idiv pos type l r) ≠
        .ok (.binop .idiv pos type l r) ∧
      fold_binop env (fold_constants env) (.binop .mod pos type l r) ≠
        .ok (.binop .mod pos type l r) := by
  have fl := fold_constants_of_is_const env l hcl
  have fr := fold_constants_of_is_const env r hcr
  obtain ⟨vl, hvl⟩ := get_value_long_of_is_const env l hcl
  have h1 : fold_binop env (fold_constants env) (.binop .idiv pos type l r) =
      .error .div_by_zero := by
    rw [fold_binop_eq, fl, fr]
    simp [fold_binop, hcl, hcr, htl, htr, hvl, hvr, long_div, bind, Except.bind]
  have h2 : fold_binop env (fold_constants env) (.binop .mod pos type l r) =
      .error .div_by_zero := by
    rw [fold_binop_eq, fl, fr]
    simp [fold_binop, hcl, hcr, htl, htr, hvl, hvr, long_mod, bind, Except.bind]
  refine ⟨h1, h2, ?_, ?_⟩
  · rw [h1]; intro h; cases h
  · rw [h2]; intro h; cases h

/-- Witness for C17: `1 div 0` and `FOO mod 0` end in the division-by-zero
fault. -/
theorem C17_witness :
    fold_binop env0 (fold_constants env0)
        (.binop .idiv (at_ 1 3) .integer_type (lit 1 1) (lit 7 0)) = .error .div_by_zero ∧
      fold_binop env0 (fold_constants env0)
        (.binop .mod (at_ 1 3) .integer_type FOO (lit 7 0)) = .error .div_by_zero :=
  ⟨(C17_division_by_constant_zero env0 (at_ 1 3) .integer_type (lit 1 1) (lit 7 0)
      rfl rfl rfl rfl rfl).1,
    (C17_division_by_constant_zero env0 (at_ 1 3) .integer_type FOO (lit 7 0)
      rfl rfl rfl rfl rfl).2.1⟩

/-- A fault of `fold_constants` is the abstract-class `fatal` or a division
trap, for expressions of depth below `n`. -/
theorem fold_constants_error_below (env : Env) :
    ∀ (n : Nat) (e : Expr) (F : Fault), e.depth < n → fold_constants env e = .error F →
      F = .fatal_abstract ∨ F = .div_by_zero ∨ F = .div_overflow := by
  intro n
  induction n with
  | zero => intro e F h; omega
  | succ n ih =>
    intro e F hd h
    rw [fold_constants_eq] at h
    rcases fold_constants_body_error env _ (fold_constants_depth env) e F h with
      h1 | h1 | h1 | ⟨x, hx, h1⟩
    · exact Or.inl h1
    · exact Or.inr (Or.inl h1)
    · exact Or.inr (Or.inr h1)
    · exact ih x F (by omega) h1

/-- A fault of `fold_constants` is the abstract-class `fatal` or a division
trap. -/
theorem fold_constants_error (env : Env) (e : Expr) (F : Fault)
    (h : fold_constants env e = .error F) :
    F = .fatal_abstract ∨ F = .div_by_zero ∨ F = .div_overflow :=
  fold_constants_error_below env (e.depth + 1) e F (Nat.lt_succ_self _) h

/-- Claim C18. The value-extraction fatal branch is unreachable from folding:
`get_value` returns a value on every node for which `is_const` returned true
(integer literal, real literal or identifier), and no call of `fold_constants`,
`fold_binop` or `fold_binrel`, on any input tree, ends in
`fatal("not possible to get a value")`. -/
theorem C18_get_value_fatal_unreachable (env : Env) :
    (∀ e : Expr, is_const env e = true →
      (e.tag = .AST_INTEGER ∨ e.tag = .AST_REAL ∨ e.tag = .AST_ID) ∧
        (∃ v, get_value_long env e = .ok v) ∧ (∃ d, get_value_double env e = .ok d)) ∧
    (∀ e : Expr, fold_constants env e ≠ .error .fatal_no_value) ∧
    (∀ node : Expr, fold_binop env (fold_constants env) node ≠ .error .fatal_no_value) ∧
    (∀ node : Expr, fold_binrel env (fold_constants env) node ≠ .error .fatal_no_value) := by
  have hf : ∀ e : Expr, fold_constants env e ≠ .error .fatal_no_value := by
    intro e h
    rcases fold_constants_error env e _ h with h1 | h1 | h1 <;> cases h1
  refine ⟨?_, hf, ?_, ?_⟩
  · intro e hc
    refine ⟨?_, get_value_long_of_is_const env e hc, get_value_double_of_is_const env e hc⟩
    cases e <;> simp only [is_const, Bool.false_eq_true] at hc
    · exact Or.inr (Or.inr rfl)
    · exact Or.inl rfl
    · exact Or.inr (Or.inl rfl)
  · intro node h
    cases node with
    | binop op pos type l r =>
      rw [fold_binop_fold_constants] at h
      exact hf _ h
    | _ => simp [fold_binop] at h
  · intro node h
    cases node with
    | binrel rel pos type l r =>
      rw [fold_binrel_fold_constants] at h
      exact hf _ h
    | _ => simp [fold_binrel] at h

/-- Folding a parameter list is the naive fold of the list, when
`fold_constants` is the naive fold on its expressions. -/
theorem ExprList.optimize_list_eq_naive (env : Env) :
    ∀ l : ExprList,
      (∀ x : Expr, x.depth ≤ l.depth → fold_constants env x = naive_fold env x) →
      ExprList.optimize (fold_constants env) l = naive_fold_list env l
  | .null, _ => rfl
  | .node pos p e, h => by
    have hp := ExprList.optimize_list_eq_naive env p
      (fun x hx => h x (by simp only [ExprList.depth]; omega))
    have he := h e (by simp only [ExprList.depth]; omega)
    simp only [ExprList.optimize, naive_fold_list, hp, he]
  | .node_null pos p, h => by
    have hp := ExprList.optimize_list_eq_naive env p
      (fun x hx => h x (by simp only [ExprList.depth]; omega))
    simp only [ExprList.optimize, naive_fold_list, hp]

/-- The function `fold_constants` is the naive single-pass fold, for
expressions of depth below `n`. -/
theorem fold_constants_eq_naive_below (env : Env) :
    ∀ (n : Nat) (e : Expr), e.depth < n → fold_constants env e = naive_fold env e := by
  intro n
  induction n with
  | zero => intro e h; omega
  | succ n ih =>
    intro e hd
    cases e with
    | abstract_class k pos type =>
      rw [fold_constants_eq]
      rfl
    | ast_id pos type s => rfl
    | ast_integer pos v => rfl
    | ast_real pos v => rfl
    | binop op pos type l r =>
      simp only [Expr.depth] at hd
      rw [fold_constants_binop, ih l (by omega), ih r (by omega)]
      simp only [naive_fold]
    | binrel rel pos type l r =>
      simp only [Expr.depth] at hd
      rw [fold_constants_binrel, ih l (by omega), ih r (by omega)]
      simp only [naive_fold]
    | ast_functioncall pos type id ps =>
      simp only [Expr.depth] at hd
      rw [fold_constants_eq, fold_constants_body_other env (fold_constants env)
        (.ast_functioncall pos type id ps) rfl rfl]
      simp only [Expr.optimize, naive_fold,
        ExprList.optimize_list_eq_naive env ps (fun x hx => ih x (by omega))]
    | ast_indexed pos type id index =>
      simp only [Expr.depth] at hd
      rw [fold_constants_indexed, ih index (by omega)]
      simp only [naive_fold]
      rfl
    | ast_uminus pos type x =>
      simp only [Expr.depth] at hd
      rw [fold_constants_uminus, ih x (by omega)]
      simp only [naive_fold]
      rfl
    | ast_not pos type x =>
      simp only [Expr.depth] at hd
      rw [fold_constants_not, ih x (by omega)]
      simp only [naive_fold]
      rfl
    | ast_cast pos type x =>
      simp only [Expr.depth] at hd
      rw [fold_constants_cast, ih x (by omega)]
      simp only [naive_fold]
      rfl

/-- Claim C19. The double recursion is redundant: `fold_constants`, which
folds the operands of a binary node once in the node's own `optimize()` and a
second time in `fold_binop` / `fold_binrel`, gives on every expression the
outcome of the naive single-pass bottom-up fold that folds each child exactly
once before deciding whether to replace the parent; in particular, whenever
it completes, the two results are equal. -/
theorem C19_double_recursion_redundant (env : Env) (e : Expr) :
    fold_constants env e = naive_fold env e ∧
      ∀ res, fold_constants env e = .ok res → naive_fold env e = .ok res := by
  have h := fold_constants_eq_naive_below env (e.depth + 1) e (Nat.lt_succ_self _)
  exact ⟨h, fun res hr => by rw [← h]; exact hr⟩

/-- Claim C20, evaluated at the failing inputs. On a body holding one `return`
with no value expression `do_optimize` ends in a null dereference
(`ast_return::optimize` passes the NULL `value` to `fold_constants`, which
calls `node->optimize()`), and so it does on a `while`, an `if` or an `elsif`
whose body is absent (`body->optimize()` with no test); an absent preceding
list, elsif list, else body or parameter list is tested for and tolerated. -/
theorem C20_absent_children_not_tolerated :
    do_optimize env0 (body_of (.ast_return (at_ 1 1) none)) = .error .null_deref ∧
      do_optimize env0 (body_of (.ast_while (at_ 1 1) var_x .null)) = .error .null_deref ∧
      do_optimize env0 (body_of (.ast_if (at_ 1 1) var_x .null .null .null)) =
        .error .null_deref ∧
      do_optimize env0 (body_of (.ast_if (at_ 1 1) var_x (.node_null (at_ 1 9) .null)
          (.node (at_ 2 1) .null (.ast_elsif (at_ 2 1) var_x .null)) .null)) =
        .error .null_deref ∧
      do_optimize env0 (body_of (.ast_if (at_ 1 1) var_x (.node_null (at_ 1 9) .null)
          .null .null)) =
        .ok (body_of (.ast_if (at_ 1 1) var_x (.node_null (at_ 1 9) .null) .null .null)) ∧
      do_optimize env0 (body_of (.ast_procedurecall (at_ 1 1) ⟨at_ 1 1, .void_type, 3⟩ .null)) =
        .ok (body_of (.ast_procedurecall (at_ 1 1) ⟨at_ 1 1, .void_type, 3⟩ .null)) := by
  refine ⟨by decide, by decide, by decide, by decide, by decide, by decide⟩

end Optimize
